import Mathlib

/-!
Verification of the resume-extraction orchestration core (`main.py`, `app.py`).

The Python source is shallowly embedded:

* JSON-compatible values (the extraction / validation mappings exchanged with
  the model) are the inductive type `JVal`; Python `json.dumps(·, indent=2)`
  is `json_dumps` and Python `json.loads` is `json_loads`.  Numeric literals
  are modelled as integers (`Int`).
* External effects (the document loader, template files on disk, the hosted
  model) are an explicit environment `Env`; each orchestration function
  returns the trace of external invocations it performed together with its
  `Except` result, so sequencing and error-propagation claims are statements
  about the trace.
* The process-wide memoized model handles (`_model` / `_json_model` globals)
  are explicit state passing over `PyState`.
-/

/-- JSON-compatible values: the shape of the data exchanged with the model in
JSON mode.  Numbers are modelled as integers. -/
inductive JVal where
  | jnull : JVal
  | jbool : Bool → JVal
  | jnum : Int → JVal
  | jstr : String → JVal
  | jarr : List JVal → JVal
  | jobj : List (String × JVal) → JVal
deriving Repr

/-- Lower-case hexadecimal digit character for `d < 16` (as used by Python's
`\uXXXX` escapes, which are lower case). -/
def hexDig (d : Nat) : Char :=
  match d with
  | 0 => '0' | 1 => '1' | 2 => '2' | 3 => '3' | 4 => '4'
  | 5 => '5' | 6 => '6' | 7 => '7' | 8 => '8' | 9 => '9'
  | 10 => 'a' | 11 => 'b' | 12 => 'c' | 13 => 'd' | 14 => 'e'
  | _ => 'f'

/-- Four-digit lower-case hex rendering of `n < 0x10000`, most significant
digit first: the `XXXX` of a Python `\uXXXX` escape. -/
def hex4 (n : Nat) : List Char :=
  [hexDig (n / 4096 % 16), hexDig (n / 256 % 16), hexDig (n / 16 % 16), hexDig (n % 16)]

/-- Escape of one character, as produced by Python `json.dumps` with its
default `ensure_ascii=True`: `"` and `\` are backslash-escaped, the common
control characters get short escapes, all other characters outside printable
ASCII are `\uXXXX`-escaped (with a surrogate pair for code points above
`0xFFFF`), and printable ASCII is emitted verbatim. -/
def escChar (c : Char) : List Char :=
  if c = '"' then ['\\', '"']
  else if c = '\\' then ['\\', '\\']
  else if c = '\n' then ['\\', 'n']
  else if c = '\r' then ['\\', 'r']
  else if c = '\t' then ['\\', 't']
  else if c.toNat = 8 then ['\\', 'b']
  else if c.toNat = 12 then ['\\', 'f']
  else if c.toNat < 32 ∨ 126 < c.toNat then
    if c.toNat < 65536 then
      '\\' :: 'u' :: hex4 c.toNat
    else
      '\\' :: 'u' :: hex4 (55296 + (c.toNat - 65536) / 1024) ++
        '\\' :: 'u' :: hex4 (56320 + (c.toNat - 65536) % 1024)
  else [c]

/-- JSON string literal: quote, escaped characters, quote. -/
def serStr (s : String) : List Char :=
  '"' :: s.data.flatMap escChar ++ ['"']

/-- Decimal digit character for `d < 10`. -/
def digitChar10 (d : Nat) : Char :=
  match d with
  | 0 => '0' | 1 => '1' | 2 => '2' | 3 => '3' | 4 => '4'
  | 5 => '5' | 6 => '6' | 7 => '7' | 8 => '8' | _ => '9'

/-- Decimal rendering of a natural number, most significant digit first
(Python `repr` of a non-negative int). -/
def natChars (n : Nat) : List Char :=
  if n = 0 then ['0'] else (Nat.digits 10 n).reverse.map digitChar10

/-- Decimal rendering of an integer (Python `repr` of an int). -/
def intChars (i : Int) : List Char :=
  if i < 0 then '-' :: natChars (-i).toNat else natChars i.toNat

/-- Newline followed by the two-space-per-level indentation that
`json.dumps(·, indent=2)` places before an element at nesting depth `k`. -/
def nlIndent (k : Nat) : List Char :=
  '\n' :: List.replicate (2 * k) ' '

mutual
/-- Characters emitted by Python `json.dumps(v, indent=2)` for a value at
nesting depth `lvl`: scalars inline; non-empty arrays and objects put each
element on its own indented line; empty containers are `[]` / `{}`. -/
def serVal (lvl : Nat) : JVal → List Char
  | .jnull => ['n', 'u', 'l', 'l']
  | .jbool true => ['t', 'r', 'u', 'e']
  | .jbool false => ['f', 'a', 'l', 's', 'e']
  | .jnum i => intChars i
  | .jstr s => serStr s
  | .jarr [] => ['[', ']']
  | .jarr (v :: vs) =>
      '[' :: (nlIndent (lvl + 1) ++ serVal (lvl + 1) v ++ serArrTail (lvl + 1) vs ++
        nlIndent lvl ++ [']'])
  | .jobj [] => ['{', '}']
  | .jobj (m :: ms) =>
      '{' :: (nlIndent (lvl + 1) ++ serMember (lvl + 1) m ++ serObjTail (lvl + 1) ms ++
        nlIndent lvl ++ ['}'])

/-- One `"key": value` object member. -/
def serMember (lvl : Nat) : String × JVal → List Char
  | (k, v) => serStr k ++ ':' :: ' ' :: serVal lvl v

/-- Remaining array elements, each preceded by `,` and a fresh indented line
(the `indent=2` item separator). -/
def serArrTail (lvl : Nat) : List JVal → List Char
  | [] => []
  | v :: vs => ',' :: (nlIndent lvl ++ serVal lvl v ++ serArrTail lvl vs)

/-- Remaining object members, each preceded by `,` and a fresh indented line. -/
def serObjTail (lvl : Nat) : List (String × JVal) → List Char
  | [] => []
  | m :: ms => ',' :: (nlIndent lvl ++ serMember lvl m ++ serObjTail lvl ms)
end

/-- Python `json.dumps(v, indent=2)` as a string, exactly as the Validation
Step serializes the extraction mapping into its prompt (`main.py` line 133). -/
def json_dumps (v : JVal) : String :=
  String.mk (serVal 0 v)

/-- Value of a hexadecimal digit character (`json.loads` accepts both cases). -/
def hexVal (c : Char) : Option Nat :=
  if c = '0' then some 0 else if c = '1' then some 1
  else if c = '2' then some 2 else if c = '3' then some 3
  else if c = '4' then some 4 else if c = '5' then some 5
  else if c = '6' then some 6 else if c = '7' then some 7
  else if c = '8' then some 8 else if c = '9' then some 9
  else if c = 'a' ∨ c = 'A' then some 10 else if c = 'b' ∨ c = 'B' then some 11
  else if c = 'c' ∨ c = 'C' then some 12 else if c = 'd' ∨ c = 'D' then some 13
  else if c = 'e' ∨ c = 'E' then some 14 else if c = 'f' ∨ c = 'F' then some 15
  else none

/-- Combine four hexadecimal digit characters into their 16-bit value. -/
def readHex4 (h1 h2 h3 h4 : Char) : Option Nat := do
  let a ← hexVal h1
  let b ← hexVal h2
  let c ← hexVal h3
  let d ← hexVal h4
  pure (((a * 16 + b) * 16 + c) * 16 + d)

/-- Decode a low-surrogate `\uXXXX` escape that completes the high surrogate
`n`; `json.loads` combines the pair into one astral code point. -/
def readLowSurrogate (n : Nat) (cs : List Char) : Option (Char × Nat) :=
  match cs with
  | g1 :: g2 :: g3 :: g4 :: _ =>
    match readHex4 g1 g2 g3 g4 with
    | some n2 =>
      if 56320 ≤ n2 ∧ n2 < 57344 then
        some (Char.ofNat (65536 + (n - 55296) * 1024 + (n2 - 56320)), 11)
      else none
    | none => none
  | _ => none

/-- Decode a `\uXXXX` escape (the `u` already consumed). -/
def readUEscape (cs : List Char) : Option (Char × Nat) :=
  match cs with
  | h1 :: h2 :: h3 :: h4 :: rest =>
    match readHex4 h1 h2 h3 h4 with
    | some n =>
      if 55296 ≤ n ∧ n < 56320 then
        match rest with
        | b1 :: b2 :: rest2 =>
          if b1 = '\\' ∧ b2 = 'u' then readLowSurrogate n rest2 else none
        | _ => none
      else some (Char.ofNat n, 5)
    | none => none
  | _ => none

/-- Decode the JSON escape sequence following a backslash: the decoded
character and how many characters of input it consumed.  `\uXXXX` escapes in
the high-surrogate range combine with an immediately following low-surrogate
`\uXXXX` escape, as Python `json.loads` does. -/
def readEscape (cs : List Char) : Option (Char × Nat) :=
  match cs with
  | [] => none
  | c :: rest =>
    if c = '"' then some ('"', 1)
    else if c = '\\' then some ('\\', 1)
    else if c = '/' then some ('/', 1)
    else if c = 'n' then some ('\n', 1)
    else if c = 't' then some ('\t', 1)
    else if c = 'r' then some ('\r', 1)
    else if c = 'b' then some (Char.ofNat 8, 1)
    else if c = 'f' then some (Char.ofNat 12, 1)
    else if c = 'u' then readUEscape rest
    else none

/-- Parse the body of a JSON string literal (the opening quote already
consumed): the decoded characters and the input after the closing quote. -/
def parseStringBody (cs : List Char) : Option (List Char × List Char) :=
  match cs with
  | [] => none
  | c :: rest =>
    if c = '"' then some ([], rest)
    else if c = '\\' then
      match readEscape rest with
      | some (d, k) =>
        match parseStringBody (rest.drop k) with
        | some (s, r) => some (d :: s, r)
        | none => none
      | none => none
    else
      match parseStringBody rest with
      | some (s, r) => some (c :: s, r)
      | none => none
termination_by cs.length
decreasing_by
  · simp only [List.length_drop, List.length_cons]; omega
  · simp only [List.length_cons]; omega

/-- JSON insignificant whitespace. -/
def isWsChar (c : Char) : Bool :=
  c = ' ' ∨ c = '\n' ∨ c = '\t' ∨ c = '\r'

/-- Skip insignificant whitespace. -/
def skipWs : List Char → List Char
  | [] => []
  | c :: rest => if isWsChar c then skipWs rest else c :: rest

/-- Accumulate further decimal digits of a number literal, stopping at the
first non-digit. -/
def parseDigitsAux : List Char → Nat → Nat × List Char
  | [], acc => (acc, [])
  | c :: rest, acc =>
    if c.isDigit then parseDigitsAux rest (acc * 10 + (c.toNat - 48))
    else (acc, c :: rest)

/-- Parse a non-empty run of decimal digits as a natural number. -/
def parseNat (cs : List Char) : Option (Nat × List Char) :=
  match cs with
  | c :: rest =>
    if c.isDigit then some (parseDigitsAux rest (c.toNat - 48)) else none
  | [] => none

mutual
/-- Parse one JSON value (integer numerals only, matching the embedding's
`JVal`), leading whitespace skipped, trailing input returned unconsumed.
`fuel` bounds the recursion depth; `json_loads` supplies enough for any
input. -/
def parseVal (fuel : Nat) (cs : List Char) : Option (JVal × List Char) :=
  match fuel with
  | 0 => none
  | f + 1 =>
    match skipWs cs with
    | [] => none
    | c :: rest =>
      if c = '{' then
        match skipWs rest with
        | [] => none
        | c2 :: r2 =>
          if c2 = '}' then some (.jobj [], r2)
          else
            match parseMember f (c2 :: r2) with
            | some (m, r3) =>
              match parseObjTail f r3 with
              | some (ms, r4) => some (.jobj (m :: ms), r4)
              | none => none
            | none => none
      else if c = '[' then
        match skipWs rest with
        | [] => none
        | c2 :: r2 =>
          if c2 = ']' then some (.jarr [], r2)
          else
            match parseVal f (c2 :: r2) with
            | some (v, r3) =>
              match parseArrTail f r3 with
              | some (vs, r4) => some (.jarr (v :: vs), r4)
              | none => none
            | none => none
      else if c = '"' then
        match parseStringBody rest with
        | some (s, r2) => some (.jstr (String.mk s), r2)
        | none => none
      else if c = '-' then
        match parseNat rest with
        | some (n, r2) => some (.jnum (-(n : Int)), r2)
        | none => none
      else if c.isDigit then
        match parseNat (c :: rest) with
        | some (n, r2) => some (.jnum (n : Int), r2)
        | none => none
      else if c = 'n' then
        match rest with
        | c1 :: c2 :: c3 :: r2 =>
          if c1 = 'u' ∧ c2 = 'l' ∧ c3 = 'l' then some (.jnull, r2) else none
        | _ => none
      else if c = 't' then
        match rest with
        | c1 :: c2 :: c3 :: r2 =>
          if c1 = 'r' ∧ c2 = 'u' ∧ c3 = 'e' then some (.jbool true, r2) else none
        | _ => none
      else if c = 'f' then
        match rest with
        | c1 :: c2 :: c3 :: c4 :: r2 =>
          if c1 = 'a' ∧ c2 = 'l' ∧ c3 = 's' ∧ c4 = 'e' then some (.jbool false, r2) else none
        | _ => none
      else none

/-- Parse one `"key": value` object member. -/
def parseMember (fuel : Nat) (cs : List Char) : Option ((String × JVal) × List Char) :=
  match fuel with
  | 0 => none
  | f + 1 =>
    match skipWs cs with
    | [] => none
    | c :: rest =>
      if c = '"' then
        match parseStringBody rest with
        | some (s, r2) =>
          match skipWs r2 with
          | [] => none
          | c2 :: r3 =>
            if c2 = ':' then
              match parseVal f r3 with
              | some (v, r4) => some ((String.mk s, v), r4)
              | none => none
            else none
        | none => none
      else none

/-- Parse the remaining members of an object: either the closing brace or a
comma followed by another member. -/
def parseObjTail (fuel : Nat) (cs : List Char) : Option (List (String × JVal) × List Char) :=
  match fuel with
  | 0 => none
  | f + 1 =>
    match skipWs cs with
    | [] => none
    | c :: rest =>
      if c = '}' then some ([], rest)
      else if c = ',' then
        match parseMember f rest with
        | some (m, r2) =>
          match parseObjTail f r2 with
          | some (ms, r3) => some (m :: ms, r3)
          | none => none
        | none => none
      else none

/-- Parse the remaining elements of an array: either the closing bracket or a
comma followed by another value. -/
def parseArrTail (fuel : Nat) (cs : List Char) : Option (List JVal × List Char) :=
  match fuel with
  | 0 => none
  | f + 1 =>
    match skipWs cs with
    | [] => none
    | c :: rest =>
      if c = ']' then some ([], rest)
      else if c = ',' then
        match parseVal f rest with
        | some (v, r2) =>
          match parseArrTail f r2 with
          | some (vs, r3) => some (v :: vs, r3)
          | none => none
        | none => none
      else none
end

/-- Python `json.loads` over the embedding's JSON fragment: parse one value
and require only whitespace to remain. -/
def json_loads (s : String) : Option JVal :=
  match parseVal (s.length + 1) s.data with
  | some (v, rest) => if skipWs rest = [] then some v else none
  | none => none

/-! ### Whitespace and character-class lemmas -/

theorem skipWs_cons_of_not_ws {c : Char} (h : isWsChar c = false) (cs : List Char) :
    skipWs (c :: cs) = c :: cs := by
  simp [skipWs, h]

theorem skipWs_replicate_space (n : Nat) (cs : List Char) :
    skipWs (List.replicate n ' ' ++ cs) = skipWs cs := by
  induction n with
  | zero => simp
  | succ n ih => simpa [skipWs, isWsChar] using ih

@[simp] theorem skipWs_nlIndent (k : Nat) (cs : List Char) :
    skipWs (nlIndent k ++ cs) = skipWs cs := by
  simp only [nlIndent, List.cons_append, skipWs, isWsChar]
  simpa using skipWs_replicate_space (2 * k) cs

/-- Heads that keep a serialized value intact in front of the parser: not
whitespace, not a closing delimiter, not a separator. -/
def solidHead (l : List Char) : Prop :=
  ∃ c t, l = c :: t ∧ isWsChar c = false ∧ c ≠ ']' ∧ c ≠ '}' ∧ c ≠ ',' ∧ c ≠ ':'

/-- A list whose head (if any) is not a decimal digit; appending it after a
serialized number literal cannot extend the literal. -/
def noDigitHead (l : List Char) : Prop :=
  ∀ c ∈ l.head?, c.isDigit = false

theorem noDigitHead_nil : noDigitHead [] := by
  intro c h; simp at h

theorem noDigitHead_cons {c : Char} (h : c.isDigit = false) (t : List Char) :
    noDigitHead (c :: t) := by
  intro d hd; simp at hd; simpa [hd] using h

/-! ### Decimal digit facts -/

theorem digitChar10_spec : ∀ d, d < 10 →
    (digitChar10 d).isDigit = true ∧ (digitChar10 d).toNat - 48 = d ∧
    isWsChar (digitChar10 d) = false ∧ digitChar10 d ≠ ']' ∧ digitChar10 d ≠ '}' ∧
    digitChar10 d ≠ ',' ∧ digitChar10 d ≠ ':' ∧ digitChar10 d ≠ '{' ∧
    digitChar10 d ≠ '[' ∧ digitChar10 d ≠ '"' ∧ digitChar10 d ≠ '-' := by
  decide

theorem parseDigitsAux_spec (L : List Nat) (hL : ∀ d ∈ L, d < 10) (acc : Nat)
    (rest : List Char) (hrest : noDigitHead rest) :
    parseDigitsAux (L.map digitChar10 ++ rest) acc =
      (L.foldl (fun a d => a * 10 + d) acc, rest) := by
  induction L generalizing acc with
  | nil =>
    cases rest with
    | nil => simp [parseDigitsAux]
    | cons c r =>
      have hc : c.isDigit = false := hrest c (by simp)
      simp [parseDigitsAux, hc]
  | cons d L ih =>
    have hd := digitChar10_spec d (hL d (by simp))
    simp only [List.map_cons, List.cons_append, parseDigitsAux, hd.1, if_true]
    rw [hd.2.1]
    exact ih (fun x hx => hL x (by simp [hx])) (acc * 10 + d)

theorem foldr_eq_ofDigits (l : List Nat) :
    l.foldr (fun d a => a * 10 + d) 0 = Nat.ofDigits 10 l := by
  induction l with
  | nil => simp [Nat.ofDigits]
  | cons d l ih => simp [Nat.ofDigits, ih]; ring

theorem parseNat_natChars (n : Nat) (rest : List Char) (hrest : noDigitHead rest) :
    parseNat (natChars n ++ rest) = some (n, rest) := by
  by_cases hn : n = 0
  · subst hn
    simpa [natChars, parseNat, parseDigitsAux] using
      parseDigitsAux_spec [] (by simp) 0 rest hrest
  · have hdig : ∀ d ∈ (Nat.digits 10 n).reverse, d < 10 := by
      intro d hd
      exact Nat.digits_lt_base (by omega) (List.mem_reverse.mp hd)
    have hne : (Nat.digits 10 n).reverse ≠ [] := by
      simp [Nat.digits_ne_nil_iff_ne_zero, hn]
    obtain ⟨d0, D, hD⟩ := List.exists_cons_of_ne_nil hne
    have hd0 : d0 < 10 := hdig d0 (by simp [hD])
    have hspec := digitChar10_spec d0 hd0
    have hfold := parseDigitsAux_spec D (fun x hx => hdig x (by simp [hD, hx]))
      d0 rest hrest
    have hsum : D.foldl (fun a d => a * 10 + d) d0 = n := by
      have h1 : (d0 :: D).foldl (fun a d => a * 10 + d) 0 = n := by
        rw [← hD]
        rw [← List.foldr_reverse]
        simp only [List.reverse_reverse]
        exact (foldr_eq_ofDigits _).trans (Nat.ofDigits_digits 10 n)
      simpa using h1
    simp only [natChars, hn, if_false, hD, List.map_cons, List.cons_append, parseNat,
      hspec.1, if_true, hspec.2.1, hfold, hsum]

/-! ### Hexadecimal escape facts -/

theorem hexVal_hexDig : ∀ d, d < 16 → hexVal (hexDig d) = some d := by
  decide

theorem readHex4_hex4 (n : Nat) (hn : n < 65536) :
    readHex4 (hexDig (n / 4096 % 16)) (hexDig (n / 256 % 16)) (hexDig (n / 16 % 16))
      (hexDig (n % 16)) = some n := by
  have h1 := hexVal_hexDig (n / 4096 % 16) (Nat.mod_lt _ (by norm_num))
  have h2 := hexVal_hexDig (n / 256 % 16) (Nat.mod_lt _ (by norm_num))
  have h3 := hexVal_hexDig (n / 16 % 16) (Nat.mod_lt _ (by norm_num))
  have h4 := hexVal_hexDig (n % 16) (Nat.mod_lt _ (by norm_num))
  have harith : ((n / 4096 % 16 * 16 + n / 256 % 16) * 16 + n / 16 % 16) * 16 + n % 16 = n := by
    omega
  simp [readHex4, h1, h2, h3, h4, harith]

theorem readUEscape_hex4 (n : Nat) (hn : n < 65536) (hns : ¬(55296 ≤ n ∧ n < 56320))
    (rest : List Char) :
    readUEscape (hex4 n ++ rest) = some (Char.ofNat n, 5) := by
  simp only [hex4, List.cons_append, List.nil_append, readUEscape, readHex4_hex4 n hn,
    hns, if_false]

theorem readUEscape_pair (hi lo : Nat) (hhi : 55296 ≤ hi ∧ hi < 56320)
    (hlo : 56320 ≤ lo ∧ lo < 57344) (rest : List Char) :
    readUEscape (hex4 hi ++ '\\' :: 'u' :: hex4 lo ++ rest) =
      some (Char.ofNat (65536 + (hi - 55296) * 1024 + (lo - 56320)), 11) := by
  have hhi16 : hi < 65536 := by omega
  have hlo16 : lo < 65536 := by omega
  simp only [hex4, List.cons_append, List.nil_append, readUEscape,
    readHex4_hex4 hi hhi16, hhi, if_true, readLowSurrogate, readHex4_hex4 lo hlo16, hlo]
  simp

theorem char_toNat_lt (c : Char) : c.toNat < 1114112 := by
  have h := c.valid
  simp only [Char.toNat]
  rcases h with h | h
  · omega
  · omega

theorem char_not_surrogate (c : Char) : ¬(55296 ≤ c.toNat ∧ c.toNat < 56320) := by
  have h := c.valid
  simp only [Char.toNat]
  rcases h with h | h
  · omega
  · omega

theorem option_map_match (x : Option (List Char × List Char)) (d : Char) :
    (match x with
      | some (s, r) => some (d :: s, r)
      | none => none) = x.map fun sr => (d :: sr.1, sr.2) := by
  cases x with
  | none => rfl
  | some p => cases p; rfl

theorem parseStringBody_esc_step (rest : List Char) (d : Char) (k : Nat)
    (h : readEscape rest = some (d, k)) :
    parseStringBody ('\\' :: rest) =
      (parseStringBody (rest.drop k)).map fun sr => (d :: sr.1, sr.2) := by
  rw [parseStringBody]
  rw [if_neg (by decide), if_pos rfl, h]
  exact option_map_match (parseStringBody (rest.drop k)) d

theorem parseStringBody_plain_step (c : Char) (rest : List Char)
    (h1 : ¬c = '"') (h2 : ¬c = '\\') :
    parseStringBody (c :: rest) =
      (parseStringBody rest).map fun sr => (c :: sr.1, sr.2) := by
  rw [parseStringBody]
  rw [if_neg h1, if_neg h2, option_map_match]

theorem readEscape_u_step (rest : List Char) :
    readEscape ('u' :: rest) = readUEscape rest := by
  rw [readEscape]
  rw [if_neg (by decide), if_neg (by decide), if_neg (by decide), if_neg (by decide),
    if_neg (by decide), if_neg (by decide), if_neg (by decide), if_neg (by decide),
    if_pos rfl]

theorem parseStringBody_escChar (c : Char) (tail : List Char) :
    parseStringBody (escChar c ++ tail) =
      (parseStringBody tail).map fun sr => (c :: sr.1, sr.2) := by
  rw [escChar]
  split_ifs with h1 h2 h3 h4 h5 h6 h7 h8 h9
  · subst h1
    rw [List.cons_append, List.cons_append, List.nil_append,
      parseStringBody_esc_step _ _ _ (by rw [readEscape]; rw [if_pos rfl]), List.drop_succ_cons,
      List.drop_zero]
  · subst h2
    rw [List.cons_append, List.cons_append, List.nil_append,
      parseStringBody_esc_step _ _ _ (by rw [readEscape]; rw [if_neg (by decide), if_pos rfl]),
      List.drop_succ_cons, List.drop_zero]
  · subst h3
    rw [List.cons_append, List.cons_append, List.nil_append,
      parseStringBody_esc_step _ _ _
        (by rw [readEscape]; rw [if_neg (by decide), if_neg (by decide), if_neg (by decide),
          if_pos rfl]),
      List.drop_succ_cons, List.drop_zero]
  · subst h4
    rw [List.cons_append, List.cons_append, List.nil_append,
      parseStringBody_esc_step _ _ _
        (by rw [readEscape]; rw [if_neg (by decide), if_neg (by decide), if_neg (by decide),
          if_neg (by decide), if_neg (by decide), if_pos rfl]),
      List.drop_succ_cons, List.drop_zero]
  · subst h5
    rw [List.cons_append, List.cons_append, List.nil_append,
      parseStringBody_esc_step _ _ _
        (by rw [readEscape]; rw [if_neg (by decide), if_neg (by decide), if_neg (by decide),
          if_neg (by decide), if_pos rfl]),
      List.drop_succ_cons, List.drop_zero]
  · have hc : Char.ofNat 8 = c := by rw [← h6, Char.ofNat_toNat]
    rw [List.cons_append, List.cons_append, List.nil_append,
      parseStringBody_esc_step _ _ _
        (by rw [readEscape]; rw [if_neg (by decide), if_neg (by decide), if_neg (by decide),
          if_neg (by decide), if_neg (by decide), if_neg (by decide), if_pos rfl]),
      List.drop_succ_cons, List.drop_zero, hc]
  · have hc : Char.ofNat 12 = c := by rw [← h7, Char.ofNat_toNat]
    rw [List.cons_append, List.cons_append, List.nil_append,
      parseStringBody_esc_step _ _ _
        (by rw [readEscape]; rw [if_neg (by decide), if_neg (by decide), if_neg (by decide),
          if_neg (by decide), if_neg (by decide), if_neg (by decide), if_neg (by decide),
          if_pos rfl]),
      List.drop_succ_cons, List.drop_zero, hc]
  · -- control or non-ASCII character below 0x10000: single `\uXXXX` escape
    have hesc := readUEscape_hex4 c.toNat h9 (char_not_surrogate c) tail
    rw [Char.ofNat_toNat] at hesc
    have hre : readEscape ('u' :: (hex4 c.toNat ++ tail)) = some (c, 5) := by
      rw [readEscape_u_step]; exact hesc
    rw [List.cons_append, List.cons_append,
      parseStringBody_esc_step _ _ _ hre]
    simp only [hex4, List.cons_append, List.nil_append, List.drop_succ_cons, List.drop_zero]
  · -- astral character: surrogate-pair escape
    have hlt := char_toNat_lt c
    have hge : 65536 ≤ c.toNat := by omega
    have hhi : 55296 ≤ 55296 + (c.toNat - 65536) / 1024 ∧
        55296 + (c.toNat - 65536) / 1024 < 56320 := by omega
    have hlo : 56320 ≤ 56320 + (c.toNat - 65536) % 1024 ∧
        56320 + (c.toNat - 65536) % 1024 < 57344 := by omega
    have hesc := readUEscape_pair _ _ hhi hlo tail
    have hval : 65536 + (55296 + (c.toNat - 65536) / 1024 - 55296) * 1024 +
        (56320 + (c.toNat - 65536) % 1024 - 56320) = c.toNat := by omega
    rw [hval, Char.ofNat_toNat] at hesc
    simp only [List.cons_append, List.append_assoc] at hesc
    have hre : readEscape ('u' :: (hex4 (55296 + (c.toNat - 65536) / 1024) ++
        ('\\' :: 'u' :: (hex4 (56320 + (c.toNat - 65536) % 1024) ++ tail)))) = some (c, 11) := by
      rw [readEscape_u_step]; exact hesc
    simp only [List.cons_append, List.append_assoc]
    rw [parseStringBody_esc_step _ _ _ hre]
    simp only [hex4, List.cons_append, List.nil_append, List.drop_succ_cons, List.drop_zero]
  · -- plain printable ASCII character
    rw [List.cons_append, List.nil_append, parseStringBody_plain_step c _ h1 h2]

theorem parseStringBody_escList (cs tail : List Char) :
    parseStringBody (cs.flatMap escChar ++ '"' :: tail) = some (cs, tail) := by
  induction cs with
  | nil => simp [parseStringBody]
  | cons c cs ih =>
    rw [List.flatMap_cons, List.append_assoc, parseStringBody_escChar, ih]
    rfl

theorem parseStringBody_serStr (s : String) (tail : List Char) :
    parseStringBody (s.data.flatMap escChar ++ '"' :: tail) = some (s.data, tail) :=
  parseStringBody_escList s.data tail

/-! ### Head characters of serialized values -/

theorem natChars_head (n : Nat) : ∃ c t, natChars n = c :: t ∧ c.isDigit = true := by
  by_cases hn : n = 0
  · exact ⟨'0', [], by simp [natChars, hn], by decide⟩
  · have hne : (Nat.digits 10 n).reverse ≠ [] := by
      simp [Nat.digits_ne_nil_iff_ne_zero, hn]
    obtain ⟨d0, D, hD⟩ := List.exists_cons_of_ne_nil hne
    have hd0mem : d0 ∈ (Nat.digits 10 n).reverse := by simp [hD]
    have hd0 : d0 < 10 :=
      Nat.digits_lt_base (by norm_num) (List.mem_reverse.mp hd0mem)
    exact ⟨digitChar10 d0, D.map digitChar10, by simp [natChars, hn, hD],
      (digitChar10_spec d0 hd0).1⟩

theorem digit_solid {c : Char} (h : c.isDigit = true) :
    isWsChar c = false ∧ c ≠ ']' ∧ c ≠ '}' ∧ c ≠ '{' ∧ c ≠ '[' ∧ c ≠ '"' ∧ c ≠ '-' ∧
      c ≠ ',' ∧ c ≠ ':' := by
  have hc : 48 ≤ c.toNat ∧ c.toNat ≤ 57 := by
    simpa [Char.isDigit, Char.toNat, decide_eq_true_eq] using h
  refine ⟨?_, ?_, ?_, ?_, ?_, ?_, ?_, ?_, ?_⟩
  · simp only [isWsChar, decide_eq_false_iff_not, not_or]
    refine ⟨?_, ?_, ?_, ?_⟩ <;> · rintro rfl; exact absurd hc (by decide)
  all_goals · rintro rfl; exact absurd hc (by decide)

theorem intChars_head (i : Int) : ∃ c t, intChars i = c :: t ∧
    (c.isDigit = true ∨ c = '-') := by
  by_cases hi : i < 0
  · exact ⟨'-', natChars (-i).toNat, by simp [intChars, hi], Or.inr rfl⟩
  · obtain ⟨c, t, hct, hd⟩ := natChars_head i.toNat
    exact ⟨c, t, by simp [intChars, hi, hct], Or.inl hd⟩

theorem serVal_head (lvl : Nat) (v : JVal) : ∃ c t, serVal lvl v = c :: t ∧
    isWsChar c = false ∧ c ≠ ']' ∧ c ≠ '}' ∧ c ≠ ',' := by
  cases v with
  | jnull => exact ⟨'n', _, by rw [serVal], by decide, by decide, by decide, by decide⟩
  | jbool b =>
    cases b with
    | true => exact ⟨'t', _, by rw [serVal], by decide, by decide, by decide, by decide⟩
    | false => exact ⟨'f', _, by rw [serVal], by decide, by decide, by decide, by decide⟩
  | jnum i =>
    obtain ⟨c, t, hct, hd⟩ := intChars_head i
    rcases hd with hd | hd
    · have := digit_solid hd
      exact ⟨c, t, by rw [serVal]; exact hct, this.1, this.2.1, this.2.2.1, this.2.2.2.2.2.2.2.1⟩
    · subst hd
      exact ⟨'-', t, by rw [serVal]; exact hct, by decide, by decide, by decide, by decide⟩
  | jstr s =>
    exact ⟨'"', s.data.flatMap escChar ++ ['"'],
      by rw [serVal, serStr, List.cons_append], by decide, by decide, by decide, by decide⟩
  | jarr vs =>
    cases vs with
    | nil => exact ⟨'[', _, by rw [serVal], by decide, by decide, by decide, by decide⟩
    | cons v vs => exact ⟨'[', _, by rw [serVal], by decide, by decide, by decide, by decide⟩
  | jobj ms =>
    cases ms with
    | nil => exact ⟨'{', _, by rw [serVal], by decide, by decide, by decide, by decide⟩
    | cons m ms => exact ⟨'{', _, by rw [serVal], by decide, by decide, by decide, by decide⟩

/-! ### Fuel bounds for the parser -/

mutual
/-- Recursion depth the parser needs for a serialized value. -/
def pfuel : JVal → Nat
  | .jarr [] => 1
  | .jarr (v :: vs) => 1 + pfuel v + pfuelArr vs
  | .jobj [] => 1
  | .jobj ((_, v) :: ms) => 1 + (1 + pfuel v) + pfuelObj ms
  | _ => 1

/-- Recursion depth the parser needs for a serialized array tail. -/
def pfuelArr : List JVal → Nat
  | [] => 1
  | v :: vs => 1 + pfuel v + pfuelArr vs

/-- Recursion depth the parser needs for a serialized object tail. -/
def pfuelObj : List (String × JVal) → Nat
  | [] => 1
  | (_, v) :: ms => 1 + (1 + pfuel v) + pfuelObj ms
end

theorem pfuel_pos (v : JVal) : 1 ≤ pfuel v := by
  cases v with
  | jnull => simp [pfuel]
  | jbool b => simp [pfuel]
  | jnum i => simp [pfuel]
  | jstr s => simp [pfuel]
  | jarr vs =>
    cases vs with
    | nil => rw [pfuel]
    | cons v vs => rw [pfuel]; omega
  | jobj ms =>
    cases ms with
    | nil => rw [pfuel]
    | cons m ms => cases m; rw [pfuel]; omega

/-! ### Parser branch lemmas -/

theorem parseVal_brace (f : Nat) (cs rest : List Char) (h : skipWs cs = '{' :: rest) :
    parseVal (f + 1) cs =
      match skipWs rest with
      | [] => none
      | c2 :: r2 =>
        if c2 = '}' then some (.jobj [], r2)
        else
          match parseMember f (c2 :: r2) with
          | some (m, r3) =>
            match parseObjTail f r3 with
            | some (ms, r4) => some (.jobj (m :: ms), r4)
            | none => none
          | none => none := by
  rw [parseVal, h]
  rfl

theorem parseVal_bracket (f : Nat) (cs rest : List Char) (h : skipWs cs = '[' :: rest) :
    parseVal (f + 1) cs =
      match skipWs rest with
      | [] => none
      | c2 :: r2 =>
        if c2 = ']' then some (.jarr [], r2)
        else
          match parseVal f (c2 :: r2) with
          | some (v, r3) =>
            match parseArrTail f r3 with
            | some (vs, r4) => some (.jarr (v :: vs), r4)
            | none => none
          | none => none := by
  rw [parseVal, h]
  rfl

theorem parseVal_quote (f : Nat) (cs rest : List Char) (h : skipWs cs = '"' :: rest) :
    parseVal (f + 1) cs =
      match parseStringBody rest with
      | some (s, r2) => some (.jstr (String.mk s), r2)
      | none => none := by
  rw [parseVal, h]
  rfl

theorem parseVal_minus (f : Nat) (cs rest : List Char) (h : skipWs cs = '-' :: rest) :
    parseVal (f + 1) cs =
      match parseNat rest with
      | some (n, r2) => some (.jnum (-(n : Int)), r2)
      | none => none := by
  rw [parseVal, h]
  rfl

theorem parseVal_digit (f : Nat) (cs rest : List Char) (c : Char)
    (h : skipWs cs = c :: rest) (hd : c.isDigit = true) :
    parseVal (f + 1) cs =
      match parseNat (c :: rest) with
      | some (n, r2) => some (.jnum (n : Int), r2)
      | none => none := by
  have hs := digit_solid hd
  simp only [parseVal, h]
  simp [hs.2.2.2.1, hs.2.2.2.2.1, hs.2.2.2.2.2.1, hs.2.2.2.2.2.2.1, hd]

theorem parseVal_null (f : Nat) (cs rest : List Char)
    (h : skipWs cs = 'n' :: 'u' :: 'l' :: 'l' :: rest) :
    parseVal (f + 1) cs = some (.jnull, rest) := by
  rw [parseVal, h]
  rfl

theorem parseVal_true (f : Nat) (cs rest : List Char)
    (h : skipWs cs = 't' :: 'r' :: 'u' :: 'e' :: rest) :
    parseVal (f + 1) cs = some (.jbool true, rest) := by
  rw [parseVal, h]
  rfl

theorem parseVal_false (f : Nat) (cs rest : List Char)
    (h : skipWs cs = 'f' :: 'a' :: 'l' :: 's' :: 'e' :: rest) :
    parseVal (f + 1) cs = some (.jbool false, rest) := by
  rw [parseVal, h]
  rfl

theorem parseMember_quote (f : Nat) (cs rest : List Char) (h : skipWs cs = '"' :: rest) :
    parseMember (f + 1) cs =
      match parseStringBody rest with
      | some (s, r2) =>
        (match skipWs r2 with
         | [] => none
         | c2 :: r3 =>
           if c2 = ':' then
             match parseVal f r3 with
             | some (v, r4) => some ((String.mk s, v), r4)
             | none => none
           else none)
      | none => none := by
  rw [parseMember, h]
  rfl

theorem parseObjTail_rbrace (f : Nat) (cs rest : List Char) (h : skipWs cs = '}' :: rest) :
    parseObjTail (f + 1) cs = some ([], rest) := by
  rw [parseObjTail, h]
  rfl

theorem parseObjTail_comma (f : Nat) (cs rest : List Char) (h : skipWs cs = ',' :: rest) :
    parseObjTail (f + 1) cs =
      match parseMember f rest with
      | some (m, r2) =>
        match parseObjTail f r2 with
        | some (ms, r3) => some (m :: ms, r3)
        | none => none
      | none => none := by
  rw [parseObjTail, h]
  rfl

theorem parseArrTail_rbracket (f : Nat) (cs rest : List Char) (h : skipWs cs = ']' :: rest) :
    parseArrTail (f + 1) cs = some ([], rest) := by
  rw [parseArrTail, h]
  rfl

theorem parseArrTail_comma (f : Nat) (cs rest : List Char) (h : skipWs cs = ',' :: rest) :
    parseArrTail (f + 1) cs =
      match parseVal f rest with
      | some (v, r2) =>
        match parseArrTail f r2 with
        | some (vs, r3) => some (v :: vs, r3)
        | none => none
      | none => none := by
  rw [parseArrTail, h]
  rfl

theorem parseVal_ws_invariant (f : Nat) (cs cs' : List Char) (h : skipWs cs = skipWs cs') :
    parseVal f cs = parseVal f cs' := by
  cases f with
  | zero => rfl
  | succ f => rw [parseVal, parseVal, h]

theorem parseMember_ws_invariant (f : Nat) (cs cs' : List Char) (h : skipWs cs = skipWs cs') :
    parseMember f cs = parseMember f cs' := by
  cases f with
  | zero => rfl
  | succ f => rw [parseMember, parseMember, h]

theorem parseVal_bracket_empty (f : Nat) (cs rest r2 : List Char)
    (h : skipWs cs = '[' :: rest) (h2 : skipWs rest = ']' :: r2) :
    parseVal (f + 1) cs = some (.jarr [], r2) := by
  simp only [parseVal, h, h2]
  simp

theorem parseVal_bracket_cons (f : Nat) (cs rest : List Char) (c2 : Char) (r2 : List Char)
    (h : skipWs cs = '[' :: rest) (h2 : skipWs rest = c2 :: r2) (hc2 : ¬c2 = ']') :
    parseVal (f + 1) cs =
      match parseVal f (c2 :: r2) with
      | some (v, r3) =>
        match parseArrTail f r3 with
        | some (vs, r4) => some (.jarr (v :: vs), r4)
        | none => none
      | none => none := by
  simp only [parseVal, h, h2]
  simp [hc2]

theorem parseVal_brace_empty (f : Nat) (cs rest r2 : List Char)
    (h : skipWs cs = '{' :: rest) (h2 : skipWs rest = '}' :: r2) :
    parseVal (f + 1) cs = some (.jobj [], r2) := by
  simp only [parseVal, h, h2]
  simp

theorem parseVal_brace_cons (f : Nat) (cs rest : List Char) (c2 : Char) (r2 : List Char)
    (h : skipWs cs = '{' :: rest) (h2 : skipWs rest = c2 :: r2) (hc2 : ¬c2 = '}') :
    parseVal (f + 1) cs =
      match parseMember f (c2 :: r2) with
      | some (m, r3) =>
        match parseObjTail f r3 with
        | some (ms, r4) => some (.jobj (m :: ms), r4)
        | none => none
      | none => none := by
  simp only [parseVal, h, h2]
  simp [hc2]

theorem parseMember_quote_chain (f : Nat) (cs rest : List Char) (s : List Char)
    (r2 r3 : List Char) (hq : skipWs cs = '"' :: rest)
    (hsb : parseStringBody rest = some (s, r2)) (h2 : skipWs r2 = ':' :: r3) :
    parseMember (f + 1) cs =
      match parseVal f r3 with
      | some (v, r4) => some ((String.mk s, v), r4)
      | none => none := by
  simp only [parseMember, hq, hsb, h2]
  simp

theorem noDigitHead_serArrTail (li lo : Nat) (vs : List JVal) (tail : List Char) :
    noDigitHead (serArrTail li vs ++ (nlIndent lo ++ tail)) := by
  cases vs with
  | nil =>
    rw [serArrTail]
    simp only [List.nil_append, nlIndent, List.cons_append]
    exact noDigitHead_cons (by decide) _
  | cons v vs =>
    rw [serArrTail]
    simp only [List.cons_append]
    exact noDigitHead_cons (by decide) _

theorem noDigitHead_serObjTail (li lo : Nat) (ms : List (String × JVal)) (tail : List Char) :
    noDigitHead (serObjTail li ms ++ (nlIndent lo ++ tail)) := by
  cases ms with
  | nil =>
    rw [serObjTail]
    simp only [List.nil_append, nlIndent, List.cons_append]
    exact noDigitHead_cons (by decide) _
  | cons m ms =>
    rw [serObjTail]
    simp only [List.cons_append]
    exact noDigitHead_cons (by decide) _

theorem skipWs_space (cs : List Char) : skipWs (' ' :: cs) = skipWs cs := by
  simp [skipWs, isWsChar]

theorem pfuelArr_pos (vs : List JVal) : 1 ≤ pfuelArr vs := by
  cases vs with
  | nil => rw [pfuelArr]
  | cons v vs => rw [pfuelArr]; omega

theorem pfuelObj_pos (ms : List (String × JVal)) : 1 ≤ pfuelObj ms := by
  cases ms with
  | nil => rw [pfuelObj]
  | cons m ms => cases m; rw [pfuelObj]; omega

mutual
/-- Round trip: the parser recovers any serialized value from the front of the
input, given enough fuel and a continuation that cannot extend a numeral. -/
theorem parseVal_serVal : ∀ (v : JVal) (lvl f : Nat) (rest : List Char),
    pfuel v ≤ f → noDigitHead rest →
    parseVal f (serVal lvl v ++ rest) = some (v, rest)
  | .jnull, lvl, f, rest, hf, hrest => by
    obtain ⟨g, rfl⟩ : ∃ g, f = g + 1 := by
      cases f with
      | zero => exact absurd hf (by have := pfuel_pos .jnull; omega)
      | succ g => exact ⟨g, rfl⟩
    apply parseVal_null
    rw [serVal]
    simp only [List.cons_append, List.nil_append]
    exact skipWs_cons_of_not_ws (by decide) _
  | .jbool true, lvl, f, rest, hf, hrest => by
    obtain ⟨g, rfl⟩ : ∃ g, f = g + 1 := by
      cases f with
      | zero => exact absurd hf (by have := pfuel_pos (.jbool true); omega)
      | succ g => exact ⟨g, rfl⟩
    apply parseVal_true
    rw [serVal]
    simp only [List.cons_append, List.nil_append]
    exact skipWs_cons_of_not_ws (by decide) _
  | .jbool false, lvl, f, rest, hf, hrest => by
    obtain ⟨g, rfl⟩ : ∃ g, f = g + 1 := by
      cases f with
      | zero => exact absurd hf (by have := pfuel_pos (.jbool false); omega)
      | succ g => exact ⟨g, rfl⟩
    apply parseVal_false
    rw [serVal]
    simp only [List.cons_append, List.nil_append]
    exact skipWs_cons_of_not_ws (by decide) _
  | .jnum i, lvl, f, rest, hf, hrest => by
    obtain ⟨g, rfl⟩ : ∃ g, f = g + 1 := by
      cases f with
      | zero => exact absurd hf (by have := pfuel_pos (.jnum i); omega)
      | succ g => exact ⟨g, rfl⟩
    by_cases hi : i < 0
    · have h : skipWs (serVal lvl (.jnum i) ++ rest) =
          '-' :: (natChars (-i).toNat ++ rest) := by
        rw [serVal, intChars, if_pos hi]
        simp only [List.cons_append]
        exact skipWs_cons_of_not_ws (by decide) _
      rw [parseVal_minus g _ _ h, parseNat_natChars _ _ hrest]
      have hcast : (((-i).toNat : Int)) = -i := Int.toNat_of_nonneg (by omega)
      simp [hcast]
    · obtain ⟨c, t, hct, hd⟩ := natChars_head i.toNat
      have h : skipWs (serVal lvl (.jnum i) ++ rest) = c :: (t ++ rest) := by
        rw [serVal, intChars, if_neg hi, hct]
        simp only [List.cons_append]
        exact skipWs_cons_of_not_ws (digit_solid hd).1 _
      rw [parseVal_digit g _ _ c h hd]
      have hpn : parseNat (c :: (t ++ rest)) = some (i.toNat, rest) := by
        rw [← List.cons_append, ← hct, parseNat_natChars _ _ hrest]
      rw [hpn]
      have hcast : ((i.toNat : Int)) = i := Int.toNat_of_nonneg (by omega)
      simp [hcast]
  | .jstr s, lvl, f, rest, hf, hrest => by
    obtain ⟨g, rfl⟩ : ∃ g, f = g + 1 := by
      cases f with
      | zero => exact absurd hf (by have := pfuel_pos (.jstr s); omega)
      | succ g => exact ⟨g, rfl⟩
    have h : skipWs (serVal lvl (.jstr s) ++ rest) =
        '"' :: (s.data.flatMap escChar ++ ('"' :: rest)) := by
      rw [serVal, serStr]
      simp only [List.cons_append, List.append_assoc, List.nil_append]
      exact skipWs_cons_of_not_ws (by decide) _
    rw [parseVal_quote g _ _ h, parseStringBody_serStr]
  | .jarr [], lvl, f, rest, hf, hrest => by
    obtain ⟨g, rfl⟩ : ∃ g, f = g + 1 := by
      cases f with
      | zero => exact absurd hf (by have := pfuel_pos (.jarr []); omega)
      | succ g => exact ⟨g, rfl⟩
    have h : skipWs (serVal lvl (.jarr []) ++ rest) = '[' :: (']' :: rest) := by
      rw [serVal]
      simp only [List.cons_append, List.nil_append]
      exact skipWs_cons_of_not_ws (by decide) _
    have h2 : skipWs (']' :: rest) = ']' :: rest :=
      skipWs_cons_of_not_ws (by decide) _
    exact parseVal_bracket_empty g _ _ _ h h2
  | .jarr (v :: vs), lvl, f, rest, hf, hrest => by
    obtain ⟨g, rfl⟩ : ∃ g, f = g + 1 := by
      cases f with
      | zero => exact absurd hf (by have := pfuel_pos (.jarr (v :: vs)); omega)
      | succ g => exact ⟨g, rfl⟩
    rw [pfuel] at hf
    have hfv : pfuel v ≤ g := by omega
    have hfa : pfuelArr vs ≤ g := by omega
    obtain ⟨c, t, hct, hcw, hc1, hc2, hc3⟩ := serVal_head (lvl + 1) v
    have h : skipWs (serVal lvl (.jarr (v :: vs)) ++ rest) =
        '[' :: (nlIndent (lvl + 1) ++ (serVal (lvl + 1) v ++ (serArrTail (lvl + 1) vs ++
          (nlIndent lvl ++ (']' :: rest))))) := by
      rw [serVal]
      simp only [List.cons_append, List.append_assoc, List.nil_append]
      exact skipWs_cons_of_not_ws (by decide) _
    have h2 : skipWs (nlIndent (lvl + 1) ++ (serVal (lvl + 1) v ++ (serArrTail (lvl + 1) vs ++
        (nlIndent lvl ++ (']' :: rest))))) =
        c :: (t ++ (serArrTail (lvl + 1) vs ++ (nlIndent lvl ++ (']' :: rest)))) := by
      rw [skipWs_nlIndent, hct]
      simp only [List.cons_append]
      exact skipWs_cons_of_not_ws hcw _
    rw [parseVal_bracket_cons g _ _ c _ h h2 hc1]
    have hv : parseVal g (c :: (t ++ (serArrTail (lvl + 1) vs ++
        (nlIndent lvl ++ (']' :: rest))))) =
        some (v, serArrTail (lvl + 1) vs ++ (nlIndent lvl ++ (']' :: rest))) := by
      rw [← List.cons_append, ← hct]
      exact parseVal_serVal v (lvl + 1) g _ hfv
        (noDigitHead_serArrTail (lvl + 1) lvl vs (']' :: rest))
    rw [hv]
    have ha := parseArrTail_serArrTail vs (lvl + 1) lvl g rest hfa hrest
    simp only [List.append_assoc] at ha
    simp [ha]
  | .jobj [], lvl, f, rest, hf, hrest => by
    obtain ⟨g, rfl⟩ : ∃ g, f = g + 1 := by
      cases f with
      | zero => exact absurd hf (by have := pfuel_pos (.jobj []); omega)
      | succ g => exact ⟨g, rfl⟩
    have h : skipWs (serVal lvl (.jobj []) ++ rest) = '{' :: ('}' :: rest) := by
      rw [serVal]
      simp only [List.cons_append, List.nil_append]
      exact skipWs_cons_of_not_ws (by decide) _
    have h2 : skipWs ('}' :: rest) = '}' :: rest :=
      skipWs_cons_of_not_ws (by decide) _
    exact parseVal_brace_empty g _ _ _ h h2
  | .jobj ((k, v) :: ms), lvl, f, rest, hf, hrest => by
    obtain ⟨g, rfl⟩ : ∃ g, f = g + 1 := by
      cases f with
      | zero => exact absurd hf (by have := pfuel_pos (.jobj ((k, v) :: ms)); omega)
      | succ g => exact ⟨g, rfl⟩
    rw [pfuel] at hf
    have hfm : 1 + pfuel v ≤ g := by omega
    have hfo : pfuelObj ms ≤ g := by omega
    have h : skipWs (serVal lvl (.jobj ((k, v) :: ms)) ++ rest) =
        '{' :: (nlIndent (lvl + 1) ++ ('"' :: (k.data.flatMap escChar ++ ('"' :: (':' ::
          (' ' :: (serVal (lvl + 1) v ++ (serObjTail (lvl + 1) ms ++
            (nlIndent lvl ++ ('}' :: rest)))))))))) := by
      rw [serVal, serMember, serStr]
      simp only [List.cons_append, List.append_assoc, List.nil_append]
      exact skipWs_cons_of_not_ws (by decide) _
    have h2 : skipWs (nlIndent (lvl + 1) ++ ('"' :: (k.data.flatMap escChar ++ ('"' :: (':' ::
        (' ' :: (serVal (lvl + 1) v ++ (serObjTail (lvl + 1) ms ++
          (nlIndent lvl ++ ('}' :: rest)))))))))) =
        '"' :: (k.data.flatMap escChar ++ ('"' :: (':' ::
          (' ' :: (serVal (lvl + 1) v ++ (serObjTail (lvl + 1) ms ++
            (nlIndent lvl ++ ('}' :: rest)))))))) := by
      rw [skipWs_nlIndent]
      exact skipWs_cons_of_not_ws (by decide) _
    rw [parseVal_brace_cons g _ _ '"' _ h h2 (by decide)]
    have hm : parseMember g ('"' :: (k.data.flatMap escChar ++ ('"' :: (':' ::
        (' ' :: (serVal (lvl + 1) v ++ (serObjTail (lvl + 1) ms ++
          (nlIndent lvl ++ ('}' :: rest))))))))) =
        some ((k, v), serObjTail (lvl + 1) ms ++ (nlIndent lvl ++ ('}' :: rest))) := by
      have hmm := parseMember_serMember k v (lvl + 1) g
        (serObjTail (lvl + 1) ms ++ (nlIndent lvl ++ ('}' :: rest))) hfm
        (noDigitHead_serObjTail (lvl + 1) lvl ms ('}' :: rest))
      rw [serMember, serStr] at hmm
      simp only [List.cons_append, List.append_assoc, List.nil_append] at hmm
      exact hmm
    rw [hm]
    have ho := parseObjTail_serObjTail ms (lvl + 1) lvl g rest hfo hrest
    simp only [List.append_assoc] at ho
    simp [ho]

/-- Round trip for one serialized `"key": value` object member. -/
theorem parseMember_serMember (k : String) (v : JVal) (lvl f : Nat) (rest : List Char)
    (hf : 1 + pfuel v ≤ f) (hrest : noDigitHead rest) :
    parseMember f (serMember lvl (k, v) ++ rest) = some ((k, v), rest) := by
  obtain ⟨g, rfl⟩ : ∃ g, f = g + 1 := by
    cases f with
    | zero => exact absurd hf (by omega)
    | succ g => exact ⟨g, rfl⟩
  have hfv : pfuel v ≤ g := by omega
  have hq : skipWs (serMember lvl (k, v) ++ rest) =
      '"' :: (k.data.flatMap escChar ++ ('"' :: (':' :: (' ' :: (serVal lvl v ++ rest))))) := by
    rw [serMember, serStr]
    simp only [List.cons_append, List.append_assoc, List.nil_append]
    exact skipWs_cons_of_not_ws (by decide) _
  have hsb : parseStringBody (k.data.flatMap escChar ++ ('"' :: (':' ::
      (' ' :: (serVal lvl v ++ rest))))) =
      some (k.data, ':' :: (' ' :: (serVal lvl v ++ rest))) :=
    parseStringBody_serStr k _
  have h2 : skipWs (':' :: (' ' :: (serVal lvl v ++ rest))) =
      ':' :: (' ' :: (serVal lvl v ++ rest)) :=
    skipWs_cons_of_not_ws (by decide) _
  rw [parseMember_quote_chain g _ _ k.data _ _ hq hsb h2]
  have hv : parseVal g (' ' :: (serVal lvl v ++ rest)) = some (v, rest) := by
    rw [parseVal_ws_invariant g _ (serVal lvl v ++ rest) (skipWs_space _)]
    exact parseVal_serVal v lvl g rest hfv hrest
  rw [hv]

/-- Round trip for the serialized tail of a non-empty array. -/
theorem parseArrTail_serArrTail : ∀ (vs : List JVal) (li lo f : Nat) (rest : List Char),
    pfuelArr vs ≤ f → noDigitHead rest →
    parseArrTail f (serArrTail li vs ++ nlIndent lo ++ (']' :: rest)) = some (vs, rest)
  | [], li, lo, f, rest, hf, hrest => by
    obtain ⟨g, rfl⟩ : ∃ g, f = g + 1 := by
      cases f with
      | zero => exact absurd hf (by have := pfuelArr_pos []; omega)
      | succ g => exact ⟨g, rfl⟩
    apply parseArrTail_rbracket
    rw [serArrTail]
    simp only [List.nil_append]
    rw [skipWs_nlIndent]
    exact skipWs_cons_of_not_ws (by decide) _
  | v :: vs, li, lo, f, rest, hf, hrest => by
    obtain ⟨g, rfl⟩ : ∃ g, f = g + 1 := by
      cases f with
      | zero => exact absurd hf (by have := pfuelArr_pos (v :: vs); omega)
      | succ g => exact ⟨g, rfl⟩
    rw [pfuelArr] at hf
    have hfv : pfuel v ≤ g := by omega
    have hfa : pfuelArr vs ≤ g := by omega
    have h : skipWs (serArrTail li (v :: vs) ++ nlIndent lo ++ (']' :: rest)) =
        ',' :: (nlIndent li ++ (serVal li v ++ (serArrTail li vs ++
          (nlIndent lo ++ (']' :: rest))))) := by
      rw [serArrTail]
      simp only [List.cons_append, List.append_assoc]
      exact skipWs_cons_of_not_ws (by decide) _
    rw [parseArrTail_comma g _ _ h]
    have hv : parseVal g (nlIndent li ++ (serVal li v ++ (serArrTail li vs ++
        (nlIndent lo ++ (']' :: rest))))) =
        some (v, serArrTail li vs ++ (nlIndent lo ++ (']' :: rest))) := by
      rw [parseVal_ws_invariant g _ (serVal li v ++ (serArrTail li vs ++
        (nlIndent lo ++ (']' :: rest)))) (skipWs_nlIndent _ _)]
      exact parseVal_serVal v li g _ hfv (noDigitHead_serArrTail li lo vs (']' :: rest))
    rw [hv]
    have ha := parseArrTail_serArrTail vs li lo g rest hfa hrest
    simp only [List.append_assoc] at ha
    simp [ha]

/-- Round trip for the serialized tail of a non-empty object. -/
theorem parseObjTail_serObjTail : ∀ (ms : List (String × JVal)) (li lo f : Nat)
    (rest : List Char), pfuelObj ms ≤ f → noDigitHead rest →
    parseObjTail f (serObjTail li ms ++ nlIndent lo ++ ('}' :: rest)) = some (ms, rest)
  | [], li, lo, f, rest, hf, hrest => by
    obtain ⟨g, rfl⟩ : ∃ g, f = g + 1 := by
      cases f with
      | zero => exact absurd hf (by have := pfuelObj_pos []; omega)
      | succ g => exact ⟨g, rfl⟩
    apply parseObjTail_rbrace
    rw [serObjTail]
    simp only [List.nil_append]
    rw [skipWs_nlIndent]
    exact skipWs_cons_of_not_ws (by decide) _
  | (k, v) :: ms, li, lo, f, rest, hf, hrest => by
    obtain ⟨g, rfl⟩ : ∃ g, f = g + 1 := by
      cases f with
      | zero => exact absurd hf (by have := pfuelObj_pos ((k, v) :: ms); omega)
      | succ g => exact ⟨g, rfl⟩
    rw [pfuelObj] at hf
    have hfm : 1 + pfuel v ≤ g := by omega
    have hfo : pfuelObj ms ≤ g := by omega
    have h : skipWs (serObjTail li ((k, v) :: ms) ++ nlIndent lo ++ ('}' :: rest)) =
        ',' :: (nlIndent li ++ (serMember li (k, v) ++ (serObjTail li ms ++
          (nlIndent lo ++ ('}' :: rest))))) := by
      rw [serObjTail]
      simp only [List.cons_append, List.append_assoc]
      exact skipWs_cons_of_not_ws (by decide) _
    rw [parseObjTail_comma g _ _ h]
    have hm : parseMember g (nlIndent li ++ (serMember li (k, v) ++ (serObjTail li ms ++
        (nlIndent lo ++ ('}' :: rest))))) =
        some ((k, v), serObjTail li ms ++ (nlIndent lo ++ ('}' :: rest))) := by
      rw [parseMember_ws_invariant g _ (serMember li (k, v) ++ (serObjTail li ms ++
        (nlIndent lo ++ ('}' :: rest)))) (skipWs_nlIndent _ _)]
      exact parseMember_serMember k v li g _ hfm
        (noDigitHead_serObjTail li lo ms ('}' :: rest))
    rw [hm]
    have ho := parseObjTail_serObjTail ms li lo g rest hfo hrest
    simp only [List.append_assoc] at ho
    simp [ho]
end

mutual
/-- The parser fuel a value needs is at most one more than its serialized
length, so `json_loads` always supplies enough. -/
theorem pfuel_le_serVal : ∀ (v : JVal) (lvl : Nat),
    pfuel v ≤ (serVal lvl v).length + 1
  | .jnull, lvl => by simp [pfuel, serVal]
  | .jbool true, lvl => by simp [pfuel, serVal]
  | .jbool false, lvl => by simp [pfuel, serVal]
  | .jnum i, lvl => by simp [pfuel]
  | .jstr s, lvl => by simp [pfuel]
  | .jarr [], lvl => by simp [pfuel, serVal]
  | .jarr (v :: vs), lvl => by
    have h1 := pfuel_le_serVal v (lvl + 1)
    have h2 := pfuelArr_le_serArrTail vs (lvl + 1)
    simp only [pfuel, serVal, nlIndent, List.length_cons, List.length_append,
      List.length_replicate, List.length_nil]
    omega
  | .jobj [], lvl => by simp [pfuel, serVal]
  | .jobj ((k, v) :: ms), lvl => by
    have h1 := pfuelMem_le_serMember k v (lvl + 1)
    have h2 := pfuelObj_le_serObjTail ms (lvl + 1)
    simp only [pfuel, serVal, serMember, nlIndent, List.length_cons, List.length_append,
      List.length_replicate, List.length_nil]
    simp only [serMember, List.length_append, List.length_cons] at h1
    omega

/-- Fuel bound for one object member against its serialized length. -/
theorem pfuelMem_le_serMember : ∀ (k : String) (v : JVal) (lvl : Nat),
    1 + pfuel v ≤ (serMember lvl (k, v)).length + 1
  | k, v, lvl => by
    have h1 := pfuel_le_serVal v lvl
    simp only [serMember, serStr, List.length_append, List.length_cons]
    omega

/-- Fuel bound for an array tail against its serialized length. -/
theorem pfuelArr_le_serArrTail : ∀ (vs : List JVal) (lvl : Nat),
    pfuelArr vs ≤ (serArrTail lvl vs).length + 1
  | [], lvl => by simp [pfuelArr, serArrTail]
  | v :: vs, lvl => by
    have h1 := pfuel_le_serVal v lvl
    have h2 := pfuelArr_le_serArrTail vs lvl
    simp only [pfuelArr, serArrTail, nlIndent, List.length_cons, List.length_append,
      List.length_replicate]
    omega

/-- Fuel bound for an object tail against its serialized length. -/
theorem pfuelObj_le_serObjTail : ∀ (ms : List (String × JVal)) (lvl : Nat),
    pfuelObj ms ≤ (serObjTail lvl ms).length + 1
  | [], lvl => by simp [pfuelObj, serObjTail]
  | (k, v) :: ms, lvl => by
    have h1 := pfuelMem_le_serMember k v lvl
    have h2 := pfuelObj_le_serObjTail ms lvl
    simp only [pfuelObj, serObjTail, nlIndent, List.length_cons, List.length_append,
      List.length_replicate]
    omega
end

/-- Serialize-then-parse round trip: `json.loads` applied to
`json.dumps(v, indent=2)` recovers exactly `v`. -/
theorem json_loads_dumps (v : JVal) : json_loads (json_dumps v) = some v := by
  have hfuel : pfuel v ≤ (serVal 0 v).length + 1 := pfuel_le_serVal v 0
  have h := parseVal_serVal v 0 ((serVal 0 v).length + 1) [] hfuel noDigitHead_nil
  rw [List.append_nil] at h
  rw [json_loads, json_dumps]
  simp only [String.length, String.data, h, skipWs]
  simp

/-! ## Orchestration core of `main.py`

External effects are an explicit environment; every orchestration function
returns the ordered trace of external invocations it performed alongside its
result, and failures are `Except.error` values that propagate exactly as
uncaught Python exceptions do. -/

/-- Python exceptions that can cross the orchestration core. -/
inductive Err where
  | fileNotFound : String → Err
  | keyError : String → Err
  | valueError : String → Err
  | network : String → Err
deriving DecidableEq, Repr

/-- One invocation of an external collaborator. -/
inductive Event where
  | ingest : String → Event
  | readTemplate : String → Event
  | llmCall : Bool → String → Event
deriving DecidableEq, Repr

/-- A value returned by the model client: raw completion text in free-text
mode, an already-parsed JSON mapping in structured (JSON) mode. -/
inductive PyResult where
  | text : String → PyResult
  | json : JVal → PyResult
deriving Repr

/-- The external world: the document loader (`UnstructuredLoader.lazy_load`,
yielding the `page_content` of each produced chunk), the template files on
disk (`open(...).read()`), and the hosted model in each of its two modes. -/
structure Env where
  lazyLoad : String → Except Err (List String)
  readFile : String → Except Err String
  llmStructured : String → Except Err JVal
  llmText : String → Except Err String

/-- `load_pdf_content` (`main.py` lines 26-49): consume the loader's chunks;
if any were produced return their contents joined by single spaces, otherwise
return the fixed sentinel string. -/
def load_pdf_content (env : Env) (file_path : String) :
    List Event × Except Err String :=
  ([Event.ingest file_path],
    match env.lazyLoad file_path with
    | .error e => .error e
    | .ok docs =>
      match docs with
      | [] => .ok "PDF content unavailable"
      | _ :: _ => .ok (String.intercalate " " docs))

/-- `read_markdown_file` (`main.py` lines 52-55): read a template file. -/
def read_markdown_file (env : Env) (file_path : String) :
    List Event × Except Err String :=
  ([Event.readTemplate file_path], env.readFile file_path)

mutual
/-- Python `str.format` restricted to plain `{name}` placeholders (the only
form the two prompt templates use): substitutes each placeholder from the
supplied keyword values, raises `KeyError` for a placeholder missing from
them, and `ValueError` for an unmatched brace.  `{{` and `}}` are literal
braces. -/
def pyFormat (tpl : List Char) (vals : List (String × String)) :
    Except Err (List Char) :=
  match tpl with
  | [] => .ok []
  | '{' :: '{' :: rest =>
    match pyFormat rest vals with
    | .ok out => .ok ('{' :: out)
    | .error e => .error e
  | '}' :: '}' :: rest =>
    match pyFormat rest vals with
    | .ok out => .ok ('}' :: out)
    | .error e => .error e
  | '{' :: rest => pyFormatName rest [] vals
  | '}' :: _ => .error (.valueError "Single close brace encountered in format string")
  | c :: rest =>
    match pyFormat rest vals with
    | .ok out => .ok (c :: out)
    | .error e => .error e
termination_by tpl.length
decreasing_by all_goals (simp only [List.length_cons]; omega)

/-- Scan a placeholder name after `{`; on the closing brace, substitute. -/
def pyFormatName (cs acc : List Char) (vals : List (String × String)) :
    Except Err (List Char) :=
  match cs with
  | [] => .error (.valueError "Single open brace encountered in format string")
  | c :: rest =>
    if c = '}' then
      match vals.lookup (String.mk acc.reverse) with
      | some v =>
        match pyFormat rest vals with
        | .ok out => .ok (v.data ++ out)
        | .error e => .error e
      | none => .error (.keyError (String.mk acc.reverse))
    else pyFormatName rest (c :: acc) vals
termination_by cs.length
decreasing_by all_goals (simp only [List.length_cons]; omega)
end

mutual
/-- The placeholder names a format template requires, in order. -/
def requiredNames (tpl : List Char) : List String :=
  match tpl with
  | [] => []
  | '{' :: '{' :: rest => requiredNames rest
  | '}' :: '}' :: rest => requiredNames rest
  | '{' :: rest => requiredNamesName rest []
  | '}' :: _ => []
  | _ :: rest => requiredNames rest
termination_by tpl.length
decreasing_by all_goals (simp only [List.length_cons]; omega)

/-- The names required from inside a placeholder being scanned. -/
def requiredNamesName (cs acc : List Char) : List String :=
  match cs with
  | [] => []
  | c :: rest =>
    if c = '}' then String.mk acc.reverse :: requiredNames rest
    else requiredNamesName rest (c :: acc)
termination_by cs.length
decreasing_by all_goals (simp only [List.length_cons]; omega)
end

/-- `call_llm` (`main.py` lines 72-89): invoke the model in the requested
mode; in JSON mode return the parsed mapping, otherwise the completion text. -/
def call_llm (env : Env) (input_data : String) (json_mode : Bool) :
    List Event × Except Err PyResult :=
  ([Event.llmCall json_mode input_data],
    if json_mode then
      match env.llmStructured input_data with
      | .ok r => .ok (PyResult.json r)
      | .error e => .error e
    else
      match env.llmText input_data with
      | .ok r => .ok (PyResult.text r)
      | .error e => .error e)

/-- `extract_fields` (`main.py` lines 92-115): ingest the document, read and
format the extraction template `prompt.md`, call the model in JSON mode, and
return its structured output unchanged.  Any failure aborts the chain and
propagates. -/
def extract_fields (env : Env) (pdf_path fields_description : String) :
    List Event × Except Err PyResult :=
  let (ev1, contentR) := load_pdf_content env pdf_path
  match contentR with
  | .error e => (ev1, .error e)
  | .ok content =>
    let (ev2, tplR) := read_markdown_file env "prompt.md"
    match tplR with
    | .error e => (ev1 ++ ev2, .error e)
    | .ok prompt_template =>
      match pyFormat prompt_template.data
          [("fields_description", fields_description), ("content", content)] with
      | .error e => (ev1 ++ ev2, .error e)
      | .ok formatted_prompt =>
        let (ev3, r) := call_llm env (String.mk formatted_prompt) true
        (ev1 ++ ev2 ++ ev3, r)

/-- `validate_extracted_data` (`main.py` lines 118-138): read and format the
validation template `validation_prompt.md`, substituting the extraction
mapping serialized by `json.dumps(·, indent=2)`, call the model in JSON mode,
and return its structured output unchanged. -/
def validate_extracted_data (env : Env) (fields_description : String)
    (extracted_data : JVal) : List Event × Except Err PyResult :=
  let (ev1, tplR) := read_markdown_file env "validation_prompt.md"
  match tplR with
  | .error e => (ev1, .error e)
  | .ok validation_template =>
    match pyFormat validation_template.data
        [("fields_description", fields_description),
         ("extracted_data", json_dumps extracted_data)] with
    | .error e => (ev1, .error e)
    | .ok formatted_prompt =>
      let (ev2, r) := call_llm env (String.mk formatted_prompt) true
      (ev1 ++ ev2, r)

/-! ## Model client state (`get_model`, `main.py` lines 12-14 and 58-70) -/

/-- A model handle, with a process-unique object id so that handle identity
(Python object identity) is expressible.  `init_chat_model` produces a
`chatModel`; `with_structured_output` wraps one in a `structuredOutput`. -/
inductive Handle where
  | chatModel : String → String → Nat → Handle
  | structuredOutput : Handle → String → Nat → Handle
deriving DecidableEq, Repr

/-- The interpreter state the module globals live in: the allocator for
object ids and the two module-level cache slots `_model` / `_json_model`. -/
structure PyState where
  nextId : Nat
  _model : Option Handle
  _json_model : Option Handle
deriving DecidableEq, Repr

/-- The state at process start: both globals are `None` (`main.py` 13-14). -/
def initState : PyState := ⟨0, none, none⟩

/-- `init_chat_model("gpt-4o-mini", model_provider="openai")`: construct a
fresh base-model handle. -/
def init_chat_model (s : PyState) (model provider : String) : Handle × PyState :=
  (Handle.chatModel model provider s.nextId, { s with nextId := s.nextId + 1 })

/-- `base_model.with_structured_output(method="json_mode")`: wrap a handle
into a fresh structured-output handle. -/
def with_structured_output (s : PyState) (base : Handle) (method : String) :
    Handle × PyState :=
  (Handle.structuredOutput base method s.nextId, { s with nextId := s.nextId + 1 })

/-- `get_model` (`main.py` lines 58-70): per-mode lazily initialized,
memoized handle.  In JSON mode the `_json_model` slot is used, otherwise the
`_model` slot; a filled slot is returned as is. -/
def get_model (s : PyState) (json_mode : Bool) : Handle × PyState :=
  if json_mode then
    match s._json_model with
    | some h => (h, s)
    | none =>
      let (base_model, s1) := init_chat_model s "gpt-4o-mini" "openai"
      let (jm, s2) := with_structured_output s1 base_model "json_mode"
      (jm, { s2 with _json_model := some jm })
  else
    match s._model with
    | some h => (h, s)
    | none =>
      let (m, s1) := init_chat_model s "gpt-4o-mini" "openai"
      (m, { s1 with _model := some m })

/-- Run a sequence of `get_model` calls (one mode flag per call), returning
the final state: the states reachable within one process. -/
def runCalls (s : PyState) : List Bool → PyState
  | [] => s
  | b :: bs => runCalls (get_model s b).2 bs

/-- States reachable from process start by some sequence of client calls. -/
def Reachable (s : PyState) : Prop :=
  ∃ calls : List Bool, s = runCalls initState calls

/-! ## Presentation layer (`app.py`) -/

/-- Python `dict.get(key, default)` on a JSON value: `none` models the
`AttributeError` raised when the receiver is not a mapping. -/
def pyGet (v : JVal) (key : String) (default : JVal) : Option JVal :=
  match v with
  | .jobj kvs => some ((kvs.lookup key).getD default)
  | _ => none

/-- `validation_result.get('overall_score', 0)` (`app.py` line 102). -/
def app_overall_score (validation_result : JVal) : Option JVal :=
  pyGet validation_result "overall_score" (.jnum 0)

/-- `validation_result.get('field_evaluations', {})` (`app.py` line 120). -/
def app_field_evaluations (validation_result : JVal) : Option JVal :=
  pyGet validation_result "field_evaluations" (.jobj [])

/-- The per-field score the presentation layer renders (`app.py` lines
120-125): `field_evaluations.get(field, {})` then `.get('score', 0)`. -/
def app_field_score (validation_result : JVal) (field : String) : Option JVal := do
  let fe ← app_field_evaluations validation_result
  let ev ← pyGet fe field (.jobj [])
  pyGet ev "score" (.jnum 0)

/-! ## Spec-modelled template resources

The two prompt template files live in the repository root, not under the
embedded sources; only their consumers are embedded. -/

/-- Modelled from the spec: the extraction template `prompt.md` is a stored
text taking the named placeholders `fields_description` and `content`
(spec section 4.2). -/
def promptTemplate : String :=
  "Extract the following fields from the document.\nFields:\n{fields_description}\nDocument:\n{content}\n"

/-- Modelled from the spec: the validation template `validation_prompt.md` is
a stored text taking the named placeholders `fields_description` and
`extracted_data` (spec section 4.2). -/
def validationTemplate : String :=
  "Evaluate the extraction below.\nFields:\n{fields_description}\nExtracted data:\n{extracted_data}\n"

/-- A stub external world for concrete runs: one ingested chunk, the two
templates on disk, and a model that echoes a fixed structured object. -/
def stubEnv : Env where
  lazyLoad := fun _ => .ok ["Jane Doe, jane@example.com, Python developer"]
  readFile := fun p =>
    if p = "prompt.md" then .ok promptTemplate else .ok validationTemplate
  llmStructured := fun _ =>
    .ok (JVal.jobj [("name", .jstr "Jane Doe"), ("email", .jstr "jane@example.com"),
      ("skills", .jarr [.jstr "Python"])])
  llmText := fun _ => .ok "ok"

/-- A world whose document loader raises file-not-found. -/
def failIngestEnv : Env :=
  { stubEnv with lazyLoad := fun p => .error (.fileNotFound p) }

/-- A world whose template files are unreadable. -/
def failTemplateEnv : Env :=
  { stubEnv with readFile := fun p => .error (.fileNotFound p) }

/-- A world whose hosted model raises a network error. -/
def failModelEnv : Env :=
  { stubEnv with llmStructured := fun _ => .error (.network "timeout") }

/-- A world whose template files hold a placeholder no caller supplies. -/
def badTemplateEnv : Env :=
  { stubEnv with readFile := fun _ => .ok "{missing}" }

/-- A world whose document loader produces zero content chunks. -/
def emptyDocEnv : Env :=
  { stubEnv with lazyLoad := fun _ => .ok [] }

/-- A world whose document loader produces two content chunks. -/
def twoChunkEnv : Env :=
  { stubEnv with lazyLoad := fun _ => .ok ["alpha", "beta"] }

/-! ## Claim theorems -/

/-- C5: if ingestion yields zero content chunks, `load_pdf_content` returns
exactly the fixed unavailable-content sentinel string — not an empty string
and not an error. -/
theorem C5_empty_ingestion_sentinel (env : Env) (file_path : String)
    (h : env.lazyLoad file_path = .ok []) :
    load_pdf_content env file_path =
      ([Event.ingest file_path], .ok "PDF content unavailable") := by
  simp [load_pdf_content, h]

/-- Witness for C5 at a concrete zero-chunk world. -/
theorem C5_empty_ingestion_sentinel_witness :
    load_pdf_content emptyDocEnv "CV.pdf" =
      ([Event.ingest "CV.pdf"], .ok "PDF content unavailable") :=
  C5_empty_ingestion_sentinel emptyDocEnv "CV.pdf" rfl

/-- C7: for a non-empty chunk sequence, the document text is the space-joined
concatenation of all chunk contents in ingestion order. -/
theorem C7_document_text_join (env : Env) (file_path : String) (chunks : List String)
    (hok : env.lazyLoad file_path = .ok chunks) (hne : chunks ≠ []) :
    load_pdf_content env file_path =
      ([Event.ingest file_path], .ok (String.intercalate " " chunks)) := by
  cases chunks with
  | nil => exact absurd rfl hne
  | cons c cs => simp [load_pdf_content, hok]

/-- Witness for C7: two chunks joined with a single space. -/
theorem C7_document_text_join_witness :
    load_pdf_content twoChunkEnv "CV.pdf" =
      ([Event.ingest "CV.pdf"], .ok "alpha beta") := by
  have h := C7_document_text_join twoChunkEnv "CV.pdf" ["alpha", "beta"] rfl (by simp)
  simpa using h

/-- C10: calling the model client in one mode leaves the other mode's cached
handle untouched: a structured-mode call never writes `_model`, and a
free-text-mode call never writes `_json_model`. -/
theorem C10_mode_frame (s : PyState) :
    ((get_model s true).2)._model = s._model ∧
    ((get_model s false).2)._json_model = s._json_model := by
  constructor
  · cases h : s._json_model <;>
      simp [get_model, init_chat_model, with_structured_output, h]
  · cases h : s._model <;>
      simp [get_model, init_chat_model, with_structured_output, h]

/-- C1: the Extraction Step runs exactly ingestion → template formatting →
structured-mode model call, in that order, and returns the model's structured
output unchanged — no validation, coercion, or post-processing. -/
theorem C1_extraction_sequence_passthrough (env : Env)
    (pdf_path fields_description content tpl : String) (prompt : List Char) (m : JVal)
    (hing : (load_pdf_content env pdf_path).2 = .ok content)
    (htpl : env.readFile "prompt.md" = .ok tpl)
    (hfmt : pyFormat tpl.data
      [("fields_description", fields_description), ("content", content)] = .ok prompt)
    (hllm : env.llmStructured (String.mk prompt) = .ok m) :
    extract_fields env pdf_path fields_description =
      ([Event.ingest pdf_path, Event.readTemplate "prompt.md",
        Event.llmCall true (String.mk prompt)], .ok (PyResult.json m)) := by
  have hlp : load_pdf_content env pdf_path = ([Event.ingest pdf_path], .ok content) := by
    rw [← hing]
    rfl
  simp [extract_fields, hlp, read_markdown_file, htpl, hfmt, call_llm, hllm]

/-- The concrete prompt the stub world's extraction run formats. -/
def stubPrompt : String :=
  "Extract the following fields from the document.\nFields:\nName\nDocument:\nJane Doe, jane@example.com, Python developer\n"

/-- Witness for C1: a stub model's structured object flows through the
Extraction Step unchanged. -/
theorem C1_extraction_sequence_passthrough_witness :
    extract_fields stubEnv "CV.pdf" "Name" =
      ([Event.ingest "CV.pdf", Event.readTemplate "prompt.md",
        Event.llmCall true stubPrompt],
        .ok (PyResult.json (JVal.jobj [("name", .jstr "Jane Doe"),
          ("email", .jstr "jane@example.com"),
          ("skills", .jarr [.jstr "Python"])]))) :=
  C1_extraction_sequence_passthrough stubEnv "CV.pdf" "Name"
    "Jane Doe, jane@example.com, Python developer" promptTemplate stubPrompt.data _
    rfl (by simp [stubEnv])
    (by simp [promptTemplate, stubPrompt, pyFormat, pyFormatName, List.lookup])
    rfl

/-- C6: no error is caught, translated, or retried anywhere in the core: an
ingestion failure propagates out of the Extraction Step identically, before
the Prompt Formatter or Model Client is ever invoked, and template-read,
formatting-stage and model-call failures at any later stage — in extraction
or validation — propagate unchanged as well. -/
theorem C6_error_propagation :
    (∀ (env : Env) (p fd : String) (e : Err), env.lazyLoad p = .error e →
      extract_fields env p fd = ([Event.ingest p], .error e)) ∧
    (∀ (env : Env) (p fd content : String) (e : Err),
      (load_pdf_content env p).2 = .ok content →
      env.readFile "prompt.md" = .error e →
      extract_fields env p fd =
        ([Event.ingest p, Event.readTemplate "prompt.md"], .error e)) ∧
    (∀ (env : Env) (p fd content tpl : String) (e : Err),
      (load_pdf_content env p).2 = .ok content →
      env.readFile "prompt.md" = .ok tpl →
      pyFormat tpl.data [("fields_description", fd), ("content", content)] = .error e →
      extract_fields env p fd =
        ([Event.ingest p, Event.readTemplate "prompt.md"], .error e)) ∧
    (∀ (env : Env) (p fd content tpl : String) (prompt : List Char) (e : Err),
      (load_pdf_content env p).2 = .ok content →
      env.readFile "prompt.md" = .ok tpl →
      pyFormat tpl.data [("fields_description", fd), ("content", content)] = .ok prompt →
      env.llmStructured (String.mk prompt) = .error e →
      extract_fields env p fd =
        ([Event.ingest p, Event.readTemplate "prompt.md",
          Event.llmCall true (String.mk prompt)], .error e)) ∧
    (∀ (env : Env) (fd : String) (d : JVal) (e : Err),
      env.readFile "validation_prompt.md" = .error e →
      validate_extracted_data env fd d =
        ([Event.readTemplate "validation_prompt.md"], .error e)) ∧
    (∀ (env : Env) (fd : String) (d : JVal) (tpl : String) (e : Err),
      env.readFile "validation_prompt.md" = .ok tpl →
      pyFormat tpl.data
        [("fields_description", fd), ("extracted_data", json_dumps d)] = .error e →
      validate_extracted_data env fd d =
        ([Event.readTemplate "validation_prompt.md"], .error e)) ∧
    (∀ (env : Env) (fd : String) (d : JVal) (tpl : String) (prompt : List Char) (e : Err),
      env.readFile "validation_prompt.md" = .ok tpl →
      pyFormat tpl.data
        [("fields_description", fd), ("extracted_data", json_dumps d)] = .ok prompt →
      env.llmStructured (String.mk prompt) = .error e →
      validate_extracted_data env fd d =
        ([Event.readTemplate "validation_prompt.md",
          Event.llmCall true (String.mk prompt)], .error e)) := by
  refine ⟨?_, ?_, ?_, ?_, ?_, ?_, ?_⟩
  · intro env p fd e h
    simp [extract_fields, load_pdf_content, h]
  · intro env p fd content e hok h
    have hlp : load_pdf_content env p = ([Event.ingest p], .ok content) := by rw [← hok]; rfl
    simp [extract_fields, hlp, read_markdown_file, h]
  · intro env p fd content tpl e hok htpl hfmt
    have hlp : load_pdf_content env p = ([Event.ingest p], .ok content) := by rw [← hok]; rfl
    simp [extract_fields, hlp, read_markdown_file, htpl, hfmt]
  · intro env p fd content tpl prompt e hok htpl hfmt hllm
    have hlp : load_pdf_content env p = ([Event.ingest p], .ok content) := by rw [← hok]; rfl
    simp [extract_fields, hlp, read_markdown_file, htpl, hfmt, call_llm, hllm]
  · intro env fd d e h
    simp [validate_extracted_data, read_markdown_file, h]
  · intro env fd d tpl e htpl hfmt
    simp [validate_extracted_data, read_markdown_file, htpl, hfmt]
  · intro env fd d tpl prompt e htpl hfmt hllm
    simp [validate_extracted_data, read_markdown_file, htpl, hfmt, call_llm, hllm]

/-- Witness for C6: each failure stage exercised in a concrete world — the
ingestion-failure run performs no template read and no model call, and a
formatting `KeyError` (placeholder with no supplied value) aborts each step
before any model call. -/
theorem C6_error_propagation_witness :
    extract_fields failIngestEnv "CV.pdf" "Name" =
      ([Event.ingest "CV.pdf"], .error (.fileNotFound "CV.pdf")) ∧
    extract_fields failTemplateEnv "CV.pdf" "Name" =
      ([Event.ingest "CV.pdf", Event.readTemplate "prompt.md"],
        .error (.fileNotFound "prompt.md")) ∧
    extract_fields badTemplateEnv "CV.pdf" "Name" =
      ([Event.ingest "CV.pdf", Event.readTemplate "prompt.md"],
        .error (.keyError "missing")) ∧
    extract_fields failModelEnv "CV.pdf" "Name" =
      ([Event.ingest "CV.pdf", Event.readTemplate "prompt.md",
        Event.llmCall true stubPrompt], .error (.network "timeout")) ∧
    validate_extracted_data failTemplateEnv "Name" (.jobj []) =
      ([Event.readTemplate "validation_prompt.md"],
        .error (.fileNotFound "validation_prompt.md")) ∧
    validate_extracted_data badTemplateEnv "Name" (.jobj []) =
      ([Event.readTemplate "validation_prompt.md"],
        .error (.keyError "missing")) ∧
    validate_extracted_data failModelEnv "Name" (.jobj []) =
      ([Event.readTemplate "validation_prompt.md",
        Event.llmCall true "Evaluate the extraction below.\nFields:\nName\nExtracted data:\n\x7b\x7d\n"],
        .error (.network "timeout")) :=
  ⟨C6_error_propagation.1 failIngestEnv "CV.pdf" "Name" (.fileNotFound "CV.pdf") rfl,
   C6_error_propagation.2.1 failTemplateEnv "CV.pdf" "Name"
     "Jane Doe, jane@example.com, Python developer" (.fileNotFound "prompt.md") rfl rfl,
   C6_error_propagation.2.2.1 badTemplateEnv "CV.pdf" "Name"
     "Jane Doe, jane@example.com, Python developer" "{missing}" (.keyError "missing")
     rfl rfl (by simp [pyFormat, pyFormatName, List.lookup]),
   C6_error_propagation.2.2.2.1 failModelEnv "CV.pdf" "Name"
     "Jane Doe, jane@example.com, Python developer" promptTemplate stubPrompt.data
     (.network "timeout") rfl (by simp [failModelEnv, stubEnv])
     (by simp [promptTemplate, stubPrompt, pyFormat, pyFormatName, List.lookup]) rfl,
   C6_error_propagation.2.2.2.2.1 failTemplateEnv "Name" (.jobj [])
     (.fileNotFound "validation_prompt.md") rfl,
   C6_error_propagation.2.2.2.2.2.1 badTemplateEnv "Name" (.jobj []) "{missing}"
     (.keyError "missing") rfl (by simp [pyFormat, pyFormatName, List.lookup]),
   C6_error_propagation.2.2.2.2.2.2 failModelEnv "Name" (.jobj []) validationTemplate
     "Evaluate the extraction below.\nFields:\nName\nExtracted data:\n\x7b\x7d\n".data
     (.network "timeout") (by simp [failModelEnv, stubEnv])
     (by simp [validationTemplate, json_dumps, serVal, pyFormat, pyFormatName, List.lookup])
     rfl⟩

/-- C8: the Extraction Step only ever reads the extraction template
`prompt.md`, and the Validation Step only ever reads the validation template
`validation_prompt.md`. -/
theorem C8_template_identity :
    (∀ (env : Env) (p fd name : String),
      Event.readTemplate name ∈ (extract_fields env p fd).1 → name = "prompt.md") ∧
    (∀ (env : Env) (fd : String) (d : JVal) (name : String),
      Event.readTemplate name ∈ (validate_extracted_data env fd d).1 →
      name = "validation_prompt.md") := by
  constructor
  · intro env p fd name h
    have hlp : load_pdf_content env p =
        ([Event.ingest p], (load_pdf_content env p).2) := rfl
    simp only [extract_fields, read_markdown_file, call_llm] at h
    rw [hlp] at h
    rcases hC : (load_pdf_content env p).2 with e | content
    · rw [hC] at h
      simp at h
    · rw [hC] at h
      simp only [Prod.fst] at h
      simp at h
      rcases hT : env.readFile "prompt.md" with e2 | tpl
      · rw [hT] at h
        simp at h
        first | exact h | exact h.symm
      · rw [hT] at h
        simp at h
        rcases hF : pyFormat tpl.data
            [("fields_description", fd), ("content", content)] with e3 | pr
        · rw [hF] at h
          simp at h
          first | exact h | exact h.symm
        · rw [hF] at h
          simp at h
          first | exact h | exact h.symm
  · intro env fd d name h
    simp only [validate_extracted_data, read_markdown_file, call_llm] at h
    rcases hT : env.readFile "validation_prompt.md" with e2 | tpl
    · rw [hT] at h
      simp at h
      first | exact h | exact h.symm
    · rw [hT] at h
      simp at h
      rcases hF : pyFormat tpl.data
          [("fields_description", fd), ("extracted_data", json_dumps d)] with e3 | pr
      · rw [hF] at h
        simp at h
        first | exact h | exact h.symm
      · rw [hF] at h
        simp at h
        first | exact h | exact h.symm

/-- Witness for C8: a concrete run of each step, applied to the template name
it actually read. -/
theorem C8_template_identity_witness :
    ("prompt.md" : String) = "prompt.md" ∧
    ("validation_prompt.md" : String) = "validation_prompt.md" :=
  ⟨C8_template_identity.1 failTemplateEnv "CV.pdf" "Name" "prompt.md" (by decide),
   C8_template_identity.2 failTemplateEnv "Name" (.jobj []) "validation_prompt.md" (by decide)⟩

/-- Invariant of the model-client state: whatever the `_model` slot caches
was built by `init_chat_model`, and whatever `_json_model` caches was built
by `with_structured_output`. -/
def SlotsWellFormed (s : PyState) : Prop :=
  (∀ h, s._model = some h → ∃ a b c, h = Handle.chatModel a b c) ∧
  (∀ h, s._json_model = some h → ∃ b m o, h = Handle.structuredOutput b m o)

theorem slotsWellFormed_init : SlotsWellFormed initState := by
  constructor <;> intro h hh <;> simp [initState] at hh

theorem slotsWellFormed_get_model (s : PyState) (b : Bool) (hs : SlotsWellFormed s) :
    SlotsWellFormed (get_model s b).2 := by
  obtain ⟨hm, hj⟩ := hs
  cases b with
  | true =>
    cases hjm : s._json_model with
    | some h =>
      simpa [get_model, hjm] using ⟨hm, hj⟩
    | none =>
      constructor <;> intro h hh <;>
        simp [get_model, hjm, init_chat_model, with_structured_output] at hh
      · exact hm h hh
      · exact ⟨_, _, _, hh.symm⟩
  | false =>
    cases hmm : s._model with
    | some h =>
      simpa [get_model, hmm] using ⟨hm, hj⟩
    | none =>
      constructor <;> intro h hh <;>
        simp [get_model, hmm, init_chat_model, with_structured_output] at hh
      · exact ⟨_, _, _, hh.symm⟩
      · exact hj h hh

theorem slotsWellFormed_runCalls (calls : List Bool) (s : PyState)
    (hs : SlotsWellFormed s) : SlotsWellFormed (runCalls s calls) := by
  induction calls generalizing s with
  | nil => exact hs
  | cons b bs ih =>
    exact ih _ (slotsWellFormed_get_model s b hs)

theorem slotsWellFormed_reachable {s : PyState} (hs : Reachable s) :
    SlotsWellFormed s := by
  obtain ⟨calls, rfl⟩ := hs
  exact slotsWellFormed_runCalls calls initState slotsWellFormed_init

theorem get_model_true_shape (s : PyState) (hs : SlotsWellFormed s) :
    ∃ b m o, (get_model s true).1 = Handle.structuredOutput b m o := by
  cases hjm : s._json_model with
  | some h =>
    obtain ⟨b, m, o, rfl⟩ := hs.2 h hjm
    exact ⟨b, m, o, by simp [get_model, hjm]⟩
  | none =>
    exact ⟨Handle.chatModel "gpt-4o-mini" "openai" s.nextId, "json_mode", s.nextId + 1,
      by simp [get_model, hjm, init_chat_model, with_structured_output]⟩

theorem get_model_false_shape (s : PyState) (hs : SlotsWellFormed s) :
    ∃ a b c, (get_model s false).1 = Handle.chatModel a b c := by
  cases hmm : s._model with
  | some h =>
    obtain ⟨a, b, c, rfl⟩ := hs.1 h hmm
    exact ⟨a, b, c, by simp [get_model, hmm]⟩
  | none =>
    exact ⟨"gpt-4o-mini", "openai", s.nextId,
      by simp [get_model, hmm, init_chat_model, with_structured_output]⟩

/-- C3: within one process, a second same-mode call to the Model Client
accessor returns the identical cached handle without re-initialization or any
state change; calling once in each of the two modes yields two distinct
handles; and each cache slot, once written, is never overwritten. -/
theorem C3_model_client_memoization (s : PyState) (b : Bool) (hs : Reachable s) :
    get_model ((get_model s b).2) b = ((get_model s b).1, (get_model s b).2) ∧
    (get_model s true).1 ≠ (get_model ((get_model s true).2) false).1 ∧
    (get_model s false).1 ≠ (get_model ((get_model s false).2) true).1 ∧
    (∀ h, s._model = some h → ((get_model s b).2)._model = some h) ∧
    (∀ h, s._json_model = some h → ((get_model s b).2)._json_model = some h) := by
  have hwf := slotsWellFormed_reachable hs
  refine ⟨?_, ?_, ?_, ?_, ?_⟩
  · cases b with
    | true =>
      cases hjm : s._json_model with
      | some h => simp [get_model, hjm]
      | none => simp [get_model, hjm, init_chat_model, with_structured_output]
    | false =>
      cases hmm : s._model with
      | some h => simp [get_model, hmm]
      | none => simp [get_model, hmm, init_chat_model, with_structured_output]
  · obtain ⟨b1, m1, o1, h1⟩ := get_model_true_shape s hwf
    obtain ⟨a2, b2, c2, h2⟩ :=
      get_model_false_shape ((get_model s true).2) (slotsWellFormed_get_model s true hwf)
    rw [h1, h2]
    simp
  · obtain ⟨a1, b1, c1, h1⟩ := get_model_false_shape s hwf
    obtain ⟨b2, m2, o2, h2⟩ :=
      get_model_true_shape ((get_model s false).2) (slotsWellFormed_get_model s false hwf)
    rw [h1, h2]
    simp
  · intro h hh
    cases b with
    | true =>
      cases hjm : s._json_model with
      | some h2 => simpa [get_model, hjm] using hh
      | none => simpa [get_model, hjm, init_chat_model, with_structured_output] using hh
    | false => simp [get_model, hh]
  · intro h hh
    cases b with
    | true => simp [get_model, hh]
    | false =>
      cases hmm : s._model with
      | some h2 => simpa [get_model, hmm] using hh
      | none => simpa [get_model, hmm, init_chat_model, with_structured_output] using hh

/-- Witness for C3 at the state reached by one free-text call from process
start: memoization, cross-mode distinctness, and slot stability, concretely. -/
theorem C3_model_client_memoization_witness :
    get_model ((get_model (runCalls initState [false]) false).2) false =
      ((get_model (runCalls initState [false]) false).1,
        (get_model (runCalls initState [false]) false).2) ∧
    (get_model (runCalls initState [false]) true).1 ≠
      (get_model ((get_model (runCalls initState [false]) true).2) false).1 ∧
    ((get_model (runCalls initState [false]) false).2)._model =
      some (Handle.chatModel "gpt-4o-mini" "openai" 0) :=
  have hmain := C3_model_client_memoization (runCalls initState [false]) false ⟨[false], rfl⟩
  ⟨hmain.1, hmain.2.1,
    hmain.2.2.2.1 (Handle.chatModel "gpt-4o-mini" "openai" 0) (by decide)⟩

/-- If some placeholder a template requires has no supplied value, formatting
fails with an error (by strong induction on input length, jointly for the
template scanner and the name scanner). -/
theorem format_missing_aux : ∀ L : Nat,
    (∀ (tpl : List Char) (vals : List (String × String)) (n : String),
      tpl.length ≤ L → n ∈ requiredNames tpl → vals.lookup n = none →
      ∃ e, pyFormat tpl vals = .error e) ∧
    (∀ (cs acc : List Char) (vals : List (String × String)) (n : String),
      cs.length ≤ L → n ∈ requiredNamesName cs acc → vals.lookup n = none →
      ∃ e, pyFormatName cs acc vals = .error e) := by
  intro L
  induction L with
  | zero =>
    constructor
    · intro tpl vals n hlen hmem _
      cases tpl with
      | nil => simp [requiredNames] at hmem
      | cons c r => simp at hlen
    · intro cs acc vals n hlen hmem _
      cases cs with
      | nil => simp [requiredNamesName] at hmem
      | cons c r => simp at hlen
  | succ L ih =>
    constructor
    · intro tpl vals n hlen hmem hlk
      rcases tpl with _ | ⟨c, rest⟩
      · simp [requiredNames] at hmem
      · by_cases hc1 : c = '{'
        · subst hc1
          rcases rest with _ | ⟨c2, rest2⟩
          · simp [requiredNames, requiredNamesName] at hmem
          · by_cases hc2 : c2 = '{'
            · subst hc2
              have hmem' : n ∈ requiredNames rest2 := by
                simpa [requiredNames] using hmem
              obtain ⟨e, he⟩ := ih.1 rest2 vals n (by simp at hlen ⊢; omega) hmem' hlk
              exact ⟨e, by simp [pyFormat, he]⟩
            · have hmem' : n ∈ requiredNamesName (c2 :: rest2) [] := by
                simpa [requiredNames, hc2] using hmem
              obtain ⟨e, he⟩ :=
                ih.2 (c2 :: rest2) [] vals n (by simp at hlen ⊢; omega) hmem' hlk
              exact ⟨e, by simp [pyFormat, hc2, he]⟩
        · by_cases hc3 : c = '}'
          · subst hc3
            rcases rest with _ | ⟨c2, rest2⟩
            · exact ⟨.valueError "Single close brace encountered in format string",
                by simp [pyFormat]⟩
            · by_cases hc4 : c2 = '}'
              · subst hc4
                have hmem' : n ∈ requiredNames rest2 := by
                  simpa [requiredNames] using hmem
                obtain ⟨e, he⟩ := ih.1 rest2 vals n (by simp at hlen ⊢; omega) hmem' hlk
                exact ⟨e, by simp [pyFormat, he]⟩
              · exact ⟨.valueError "Single close brace encountered in format string",
                  by simp [pyFormat, hc4]⟩
          · have hmem' : n ∈ requiredNames rest := by
              simpa [requiredNames, hc1, hc3] using hmem
            obtain ⟨e, he⟩ := ih.1 rest vals n (by simp at hlen ⊢; omega) hmem' hlk
            exact ⟨e, by simp [pyFormat, hc1, hc3, he]⟩
    · intro cs acc vals n hlen hmem hlk
      rcases cs with _ | ⟨c, rest⟩
      · exact ⟨.valueError "Single open brace encountered in format string",
          by simp [pyFormatName]⟩
      · by_cases hc : c = '}'
        · subst hc
          have hmem' : n = String.mk acc.reverse ∨ n ∈ requiredNames rest := by
            simpa [requiredNamesName] using hmem
          rcases hmem' with rfl | hmem'
          · exact ⟨.keyError (String.mk acc.reverse), by simp [pyFormatName, hlk]⟩
          · rcases hv : vals.lookup (String.mk acc.reverse) with _ | v
            · exact ⟨.keyError (String.mk acc.reverse), by simp [pyFormatName, hv]⟩
            · obtain ⟨e, he⟩ := ih.1 rest vals n (by simp at hlen ⊢; omega) hmem' hlk
              exact ⟨e, by simp [pyFormatName, hv, he]⟩
        · have hmem' : n ∈ requiredNamesName rest (c :: acc) := by
            simpa [requiredNamesName, hc] using hmem
          obtain ⟨e, he⟩ := ih.2 rest (c :: acc) vals n (by simp at hlen ⊢; omega) hmem' hlk
          exact ⟨e, by simp [pyFormatName, hc, he]⟩

/-- C4: the Prompt Formatter's output contains both substituted values
verbatim (for the extraction template, with explicit surrounding text), and
formatting raises an error whenever a placeholder the template requires is
absent from the supplied named values. -/
theorem C4_prompt_formatter (fields_description content : String) :
    (∃ a b c, pyFormat promptTemplate.data
        [("fields_description", fields_description), ("content", content)] =
      .ok (a ++ fields_description.data ++ b ++ content.data ++ c)) ∧
    (∀ (tpl : List Char) (vals : List (String × String)) (n : String),
      n ∈ requiredNames tpl → vals.lookup n = none →
      ∃ e, pyFormat tpl vals = .error e) := by
  constructor
  · refine ⟨"Extract the following fields from the document.\nFields:\n".data,
      "\nDocument:\n".data, "\n".data, ?_⟩
    simp [promptTemplate, pyFormat, pyFormatName, List.lookup]
  · intro tpl vals n hmem hlk
    exact (format_missing_aux tpl.length).1 tpl vals n le_rfl hmem hlk

/-- Witness for C4: concrete substitution containment, and a `KeyError` when
the required placeholder has no supplied value. -/
theorem C4_prompt_formatter_witness :
    (∃ a b c, pyFormat promptTemplate.data
        [("fields_description", "Name"), ("content", "Doc")] =
      .ok (a ++ "Name".data ++ b ++ "Doc".data ++ c)) ∧
    (∃ e, pyFormat "{fields_description}".data [] = .error e) :=
  ⟨(C4_prompt_formatter "Name" "Doc").1,
   (C4_prompt_formatter "Name" "Doc").2 "{fields_description}".data [] "fields_description"
     (by simp [requiredNames, requiredNamesName]) rfl⟩

/-- C9: the presentation layer renders a default score-0 evaluation for any
extracted field absent from the validation result's `field_evaluations`
mapping — whether the field's entry or the whole mapping is missing — and a
missing `overall_score` likewise defaults to 0; none of these raise. -/
theorem C9_presentation_default_scores (vr fe : List (String × JVal)) (field : String) :
    (vr.lookup "field_evaluations" = some (.jobj fe) → fe.lookup field = none →
      app_field_score (.jobj vr) field = some (.jnum 0)) ∧
    (vr.lookup "field_evaluations" = none →
      app_field_score (.jobj vr) field = some (.jnum 0)) ∧
    (vr.lookup "overall_score" = none →
      app_overall_score (.jobj vr) = some (.jnum 0)) := by
  refine ⟨?_, ?_, ?_⟩
  · intro h1 h2
    simp [app_field_score, app_field_evaluations, pyGet, h1, h2]
  · intro h1
    simp [app_field_score, app_field_evaluations, pyGet, h1]
  · intro h1
    simp [app_overall_score, pyGet, h1]

/-- Witness for C9: the spec's scenario — `email` absent from
`field_evaluations`, `overall_score` absent from the result. -/
theorem C9_presentation_default_scores_witness :
    app_field_score (.jobj [("summary", .jstr "ok"),
      ("field_evaluations", .jobj [("name", .jobj [("score", .jnum 10)])])]) "email" =
      some (.jnum 0) ∧
    app_field_score (.jobj [("summary", .jstr "ok")]) "email" = some (.jnum 0) ∧
    app_overall_score (.jobj [("summary", .jstr "ok")]) = some (.jnum 0) :=
  ⟨(C9_presentation_default_scores [("summary", .jstr "ok"),
      ("field_evaluations", .jobj [("name", .jobj [("score", .jnum 10)])])]
      [("name", .jobj [("score", .jnum 10)])] "email").1 rfl rfl,
   (C9_presentation_default_scores [("summary", .jstr "ok")] [] "email").2.1 rfl,
   (C9_presentation_default_scores [("summary", .jstr "ok")] [] "email").2.2 rfl⟩

/-- C2: the Validation Step serializes the extraction mapping with
`json.dumps(·, indent=2)` (`json_dumps`, used verbatim in
`validate_extracted_data`), and this serialization reproduces every key and
value exactly: parsing the serialized text back with `json.loads` yields the
original mapping. -/
theorem C2_validation_serialization_roundtrip (extracted_data : JVal) :
    json_loads (json_dumps extracted_data) = some extracted_data :=
  json_loads_dumps extracted_data
